import Mathlib

/-
  Verification of the spekai OpenAPI tester's schema-resolution and
  example-generation engine against its natural-language specification.

  The embedding models the dynamically-typed JavaScript/TypeScript values that
  the source operates on as the inductive type JsVal below: JavaScript's
  undefined is a first-class value (absent object fields read as undef),
  numbers are exact rationals (JSON numbers; the source never relies on float
  rounding in the verified paths), and objects are ordered association lists,
  matching JavaScript's insertion-ordered string-keyed objects.

  Recursive source functions whose recursion is bounded by an incrementing
  depth counter with an early-return guard (generateExampleFromSchema,
  resolveAllRefs) are embedded as structurally recursive functions over the
  remaining fuel (guard bound + 1 - depth), with a wrapper taking the source's
  depth parameter; this makes every definition kernel-evaluable on concrete
  inputs. JavaScript exceptions (TypeError on null property access, RangeError
  on invalid array lengths, and so on) are modelled with Except.
-/

namespace Spekai

/-- A JavaScript runtime value as the source manipulates it: JSON values plus
undefined. Numbers are exact rationals; objects are insertion-ordered
association lists. -/
inductive JsVal where
  | undef
  | jnull
  | jbool (b : Bool)
  | jnum (q : Rat)
  | jstr (s : String)
  | jarr (elems : List JsVal)
  | jobj (fields : List (String × JsVal))

/-- JavaScript truthiness: undefined, null, false, 0 and the empty string are
falsy; every array and object (even empty) is truthy. -/
def truthy : JsVal → Bool
  | .undef => false
  | .jnull => false
  | .jbool b => b
  | .jnum q => decide (q ≠ 0)
  | .jstr s => decide (s ≠ "")
  | .jarr _ => true
  | .jobj _ => true

/-- Whether a value is JavaScript undefined (used for code doing a strict
comparison against undefined, as in schema.example computed not equal to
undefined). -/
def isUndef : JsVal → Bool
  | .undef => true
  | _ => false

/-- First-match lookup in an object's field list; a missing key reads as
undefined, as JavaScript property access does. -/
def lookupField : List (String × JsVal) → String → JsVal
  | [], _ => .undef
  | (k, v) :: rest, key => if k = key then v else lookupField rest key

/-- Whether a key is an own key of an object's field list (JavaScript
hasOwnProperty; the in operator additionally sees inherited prototype
members, which are outside this value space). -/
def keyPresent : List (String × JsVal) → String → Bool
  | [], _ => false
  | (k, _) :: rest, key => k = key || keyPresent rest key

/-- Whether the character list hay begins with the character list needle. -/
def leadsWith : List Char → List Char → Bool
  | [], _ => true
  | _ :: _, [] => false
  | a :: as, b :: bs => a = b && leadsWith as bs

/-- Whether needle occurs as a contiguous run inside hay. -/
def hasSubList (needle : List Char) : List Char → Bool
  | [] => needle.isEmpty
  | h :: t => leadsWith needle (h :: t) || hasSubList needle t

/-- String containment (the JavaScript String.includes). -/
def strHasSub (hay needle : String) : Bool := hasSubList needle.toList hay.toList

/-- Decimal-digit accumulation over a character list; none on any non-digit.
(Reimplemented over characters so that it evaluates inside the kernel.) -/
def digitsValAux (acc : Nat) : List Char → Option Nat
  | [] => some acc
  | c :: rest =>
      if '0' ≤ c && c ≤ '9' then digitsValAux (acc * 10 + (c.toNat - '0'.toNat)) rest
      else none

/-- A string that denotes a canonical array index, as JavaScript treats it:
the decimal numeral of a natural number with no leading zeros. -/
def natKey (s : String) : Option Nat :=
  match s.toList with
  | [] => none
  | l =>
    match digitsValAux 0 l with
    | some n => if toString n = s then some n else none
    | none => none

/-- Whether the first string starts with the second (String.startsWith,
reimplemented over characters so that it evaluates inside the kernel). -/
def startsWithHS (s pre : String) : Bool := leadsWith pre.toList s.toList

/-- Split a character list at every occurrence of the separator, keeping
empty pieces, exactly as the JavaScript String.split does. -/
def splitChars (sep : Char) : List Char → List (List Char)
  | [] => [[]]
  | c :: rest =>
      let r := splitChars sep rest
      if c = sep then [] :: r
      else
        match r with
        | h :: t => (c :: h) :: t
        | [] => [[c]]

/-- String split on a separator character (kernel-evaluable). -/
def splitOnChar (s : String) (sep : Char) : List String :=
  (splitChars sep s.toList).map String.mk

/-- Lower-casing a string character by character (kernel-evaluable). -/
def toLowerStr (s : String) : String := String.mk (s.toList.map Char.toLower)

/-- The whitespace class the JavaScript trim and the cleanup regexes use
(ASCII whitespace; the exotic unicode spaces do not occur in any verified
input). -/
def isWsChar (c : Char) : Bool :=
  c = ' ' || c = '\t' || c = '\n' || c = '\r' || c = '\x0b' || c = '\x0c'

/-- String.trim over characters: strip leading and trailing whitespace. -/
def trimStr (s : String) : String :=
  String.mk (((s.toList.dropWhile isWsChar).reverse.dropWhile isWsChar).reverse)

/-- JavaScript integer-numeral parse over characters: optional sign and
decimal digits (used by the numeric-string coercion). -/
def intStrVal (l : List Char) : Option Int :=
  match l with
  | '-' :: rest =>
      (match rest with
       | [] => none
       | _ => (digitsValAux 0 rest).map (fun n => -(n : Int)))
  | _ =>
      match l with
      | [] => none
      | _ => (digitsValAux 0 l).map (fun n => (n : Int))

/-- JavaScript OWN-property read v[k] for the value forms the source reads
fields from. Object: keyed lookup. Array: canonical index or length. String:
index yields a one-character string, or length. Numbers and booleans have no
own properties here, so every read is undefined. Reads on null and undefined
throw in JavaScript; the source only reads fields of values it has
truthiness-guarded, and the few unguarded spots are modelled with Except at
the call site, so the jnull and undef rows below are never reached there.
Inherited prototype members (constructor, toString, array and string
methods), which JavaScript also reaches through v[k], are function values
outside this value space and are not modelled: the fixed schema keys the
source reads never collide with them, and every statement whose key is
input-controlled (the reference walks of C6, the locale codes of C10) is
restricted to the own-property domain by an explicit hypothesis. -/
def jsField : JsVal → String → JsVal
  | .jobj fs, k => lookupField fs k
  | .jarr xs, k =>
      if k = "length" then .jnum (xs.length : Nat) else
      match natKey k with
      | some n => (xs.get? n).getD .undef
      | none => .undef
  | .jstr s, k =>
      if k = "length" then .jnum (s.length : Nat) else
      match natKey k with
      | some n =>
        match s.toList.get? n with
        | some c => .jstr (String.mk [c])
        | none => .undef
      | none => .undef
  | _, _ => ( .undef : JsVal)

/-- The real .length of an array or string (used by the synthesizer's enum
pick): defined for arrays and strings, none otherwise. -/
def jsLen : JsVal → Option Nat
  | .jarr xs => some xs.length
  | .jstr s => some s.length
  | _ => none

/-- v[0], as the source's first-entry selections perform it. -/
def idx0 (v : JsVal) : JsVal := jsField v "0"

/-- The JavaScript logical-or a or-else b on values: a if a is truthy,
otherwise b. -/
def jsOr (a b : JsVal) : JsVal := if truthy a then a else b

/-! ## The App.tsx reference resolver (resolveSchemaRef, resolveAllRefs) -/

/-- The walk loop of App.tsx resolveSchemaRef: for each segment, step to
current[segment] only when both current and current[segment] are truthy,
otherwise fail closed with null. A present-but-falsy value (0, empty string,
false, null) therefore also fails the walk. -/
def truthyWalk : List String → JsVal → JsVal
  | [], cur => cur
  | seg :: rest, cur =>
      if truthy cur && truthy (jsField cur seg) then truthyWalk rest (jsField cur seg)
      else .jnull

/-- App.tsx resolveSchemaRef(ref, spec): null unless ref is a non-empty string
starting with the hash-slash prefix; otherwise strip the prefix, split on
slash, and walk the document with truthyWalk. -/
def resolveSchemaRef (ref : String) (spec : JsVal) : JsVal :=
  if ref = "" || !startsWithHS ref "#/" then .jnull
  else truthyWalk (splitOnChar (ref.drop 2) '/') spec

/-- Except-valued map over a list of values, stopping at the first error, as
a JavaScript loop would on a thrown exception. -/
def mapExcept (g : JsVal → Except String JsVal) : List JsVal → Except String (List JsVal)
  | [] => .ok []
  | x :: xs => do
      let y ← g x
      let ys ← mapExcept g xs
      .ok (y :: ys)

/-- Except-valued map over an object's fields, preserving keys and order. -/
def mapExceptKV (g : JsVal → Except String JsVal) :
    List (String × JsVal) → Except String (List (String × JsVal))
  | [] => .ok []
  | (k, v) :: xs => do
      let y ← g v
      let ys ← mapExceptKV g xs
      .ok ((k, y) :: ys)

/-- The body of App.tsx resolveAllRefs, structurally recursive on the fuel
remaining before the source's depth guard (depth greater than 10) fires; fuel
0 is exactly the guard returning the node as-is. A truthy non-string ref
value reaches ref.startsWith in the source and throws, modelled as error. -/
def resolveFuel (spec : JsVal) : Nat → JsVal → Except String JsVal
  | 0, schema => .ok schema
  | f + 1, schema =>
    if truthy schema = false then .ok schema
    else if truthy (jsField schema "$ref") then
      match jsField schema "$ref" with
      | .jstr r =>
          let res := resolveSchemaRef r spec
          if truthy res then resolveFuel spec f res else .ok schema
      | _ => .error "TypeError: ref.startsWith is not a function"
    else
      match schema with
      | .jarr xs => do
          let ys ← mapExcept (fun v => resolveFuel spec f v) xs
          .ok (.jarr ys)
      | .jobj fs => do
          let ys ← mapExceptKV (fun v => resolveFuel spec f v) fs
          .ok (.jobj ys)
      | _ => .ok schema

/-- App.tsx resolveAllRefs(schema, spec, depth): deep resolution with the
guard firing once depth exceeds 10, so a call at depth d has 11 - d levels of
recursion available. -/
def resolveAllRefs (schema spec : JsVal) (depth : Nat) : Except String JsVal :=
  resolveFuel spec (11 - depth) schema

/-! ## The panel's reference resolver (SpekAiPanel._getSchemaFromRef) -/

/-- typeof v is the string object: true exactly for objects, arrays and null. -/
def isObjectTypeof : JsVal → Bool
  | .jobj _ => true
  | .jarr _ => true
  | .jnull => true
  | _ => false

/-- Key presence for the walk of _getSchemaFromRef: own object key, or an
in-bounds canonical array index or length on arrays. The source uses the
JavaScript in operator, which is additionally true at inherited prototype
member names (toString and the like); those name function-valued members
outside this value space, and hasProp is only applied at concrete
own-property inputs below. Only reached under a typeof-object guard. -/
def hasProp : JsVal → String → Bool
  | .jobj fs, k => keyPresent fs k
  | .jarr xs, k =>
      (match natKey k with
       | some n => decide (n < xs.length)
       | none => k = "length")
  | _, _ => false

/-- The walk loop of _getSchemaFromRef: step only when current is truthy, is
typeof object, and owns the segment; a present falsy value is still stepped
into (and returned if it is the final segment), unlike truthyWalk. -/
def presenceWalk : List String → JsVal → JsVal
  | [], cur => cur
  | seg :: rest, cur =>
      if truthy cur && isObjectTypeof cur && hasProp cur seg then
        presenceWalk rest (jsField cur seg)
      else .jnull

/-- SpekAiPanel._getSchemaFromRef(refPath) over the held document: null when
no document is loaded or the path lacks the hash-slash prefix; otherwise a
presence-checked walk of the split path. -/
def getSchemaFromRef (spec : JsVal) (refPath : String) : JsVal :=
  if truthy spec = false then .jnull
  else if startsWithHS refPath "#/" then presenceWalk (splitOnChar (refPath.drop 2) '/') spec
  else .jnull

/-! ## The App.tsx example generator (generateExampleFromSchema) -/

/-- Decimal/JavaScript display of a rational: integers print as their
numeral; the non-integer fallback is only a stand-in, since no verified path
displays a non-integer number. -/
def ratDisplay (q : Rat) : String :=
  if q.den = 1 then toString q.num else toString q.num ++ "/" ++ toString q.den

mutual

/-- JavaScript string conversion String(v), used by the template literal that
builds the unresolved-reference placeholder. -/
def jsToDisplay : JsVal → String
  | .undef => "undefined"
  | .jnull => "null"
  | .jbool b => if b then "true" else "false"
  | .jnum q => ratDisplay q
  | .jstr s => s
  | .jarr xs => displayList xs
  | .jobj _ => "[object Object]"

/-- Array toString: elements joined with commas, null and undefined printing
as empty. -/
def displayList : List JsVal → String
  | [] => ""
  | x :: rest =>
      (match x with
       | .undef => ""
       | .jnull => ""
       | .jbool b => if b then "true" else "false"
       | .jnum q => ratDisplay q
       | .jstr s => s
       | .jarr xs => displayList xs
       | .jobj _ => "[object Object]") ++
      (if rest.isEmpty then "" else "," ++ displayList rest)

end

/-- JavaScript numeric coercion (ToNumber) as the guards and Math.min
perform it: numbers are themselves, booleans 1 or 0, null 0, strings of
optional sign and digits their value, other strings NaN. Object and array
coercions (which go through ToPrimitive and toString) are modelled as NaN
(none); this narrows JavaScript for array values such as [2], a case no
statement below quantifies over. -/
def toNumber : JsVal → Option Rat
  | .jnum q => some q
  | .jbool b => some (if b then 1 else 0)
  | .jnull => some 0
  | .jstr s =>
      if trimStr s = "" then some 0
      else (intStrVal (trimStr s).toList).map (fun n => (n : Rat))
  | _ => none

/-- The composition guard c && c.length > 0: the field is truthy and its
length read - the real length of an array or string, otherwise the value's
own length property (a plain object carrying a numeric length property
activates the branch, exactly as in JavaScript) - compares greater than
zero after numeric coercion; a length that coerces to NaN fails the
comparison. -/
def compActive (c : JsVal) : Bool :=
  truthy c &&
    (match toNumber (jsField c "length") with
     | some n => decide (0 < n)
     | none => false)

/-- First-entry selection for allOf, oneOf and anyOf: take entry 0, and when
it carries a truthy ref and a document is loaded, substitute the resolution
(keeping the entry itself when resolution is falsy). Reading the ref field of
a null or undefined entry throws in JavaScript. -/
def compSelect (spec c : JsVal) : Except String JsVal :=
  match idx0 c with
  | .jnull => .error "TypeError: cannot read field of null"
  | .undef => .error "TypeError: cannot read field of undefined"
  | sel =>
      let rf := jsField sel "$ref"
      if truthy rf && truthy spec then
        match rf with
        | .jstr r => .ok (jsOr (resolveSchemaRef r spec) sel)
        | _ => .error "TypeError: ref.startsWith is not a function"
      else .ok sel

/-- The JavaScript Array.includes specialised to a string needle: true when
some element is that exact string. Calling it on a truthy non-array (a
declared required that is not an array) throws. -/
def jsIncludes (arr : JsVal) (k : String) : Except String Bool :=
  match arr with
  | .jarr xs =>
      .ok (xs.any (fun v => match v with | .jstr s => s = k | _ => false))
  | _ => .error "TypeError: includes is not a function"

/-- Object.keys-style entries of the properties value: objects give their
fields, arrays and strings their index-keyed elements, anything else no
entries. -/
def objEntries : JsVal → List (String × JsVal)
  | .jobj fs => fs
  | .jarr xs => xs.enum.map (fun p => (toString p.1, p.2))
  | .jstr s => s.toList.enum.map (fun p => (toString p.1, JsVal.jstr (String.mk [p.2])))
  | _ => []

/-- The property-inclusion loop shared by the object case and the typeless
default case: a property is kept when the declared required is falsy, or
contains the key, or the object has at most 5 properties in total; each kept
property recurses through the passed generator. Error order matches the
JavaScript loop (the inclusion test can throw before any recursion). -/
def genProps (g : JsVal → Except String JsVal) (req : JsVal) (total : Nat) :
    List (String × JsVal) → Except String (List (String × JsVal))
  | [] => .ok []
  | (k, v) :: rest => do
      let keep ←
        if truthy req = false then pure true
        else do
          let b ← jsIncludes req k
          pure (b || decide (total ≤ 5))
      if keep then do
        let val ← g v
        let tail ← genProps g req total rest
        .ok ((k, val) :: tail)
      else genProps g req total rest

/-- Strict equality of a value against a string literal (the switch-style
format comparisons). -/
def formatIs (v : JsVal) (s : String) : Bool :=
  match v with
  | .jstr t => t = s
  | _ => false

/-- The string case of generateExampleFromSchema: format-specific literals,
then first enum entry, then a pattern placeholder, then title/description
heuristics (which throw on truthy non-string titles, as the JavaScript
toLowerCase call does), then default or the generic placeholder. -/
def genStringCase (schema : JsVal) : Except String JsVal :=
  let fm := jsField schema "format"
  if formatIs fm "date" then .ok (.jstr "2023-12-01")
  else if formatIs fm "date-time" then .ok (.jstr "2023-12-01T10:00:00Z")
  else if formatIs fm "email" then .ok (.jstr "user@example.com")
  else if formatIs fm "uri" then .ok (.jstr "https://example.com")
  else if formatIs fm "uuid" then .ok (.jstr "123e4567-e89b-12d3-a456-426614174000")
  else if formatIs fm "password" then .ok (.jstr "password123")
  else
    let en := jsField schema "enum"
    if truthy en then .ok (idx0 en)
    else if truthy (jsField schema "pattern") then .ok (.jstr "string")
    else do
      let t := jsField schema "title"
      let tHit ←
        if truthy t then
          match t with
          | .jstr s => pure (strHasSub (toLowerStr s) "name")
          | _ => Except.error "TypeError: toLowerCase is not a function"
        else pure false
      if tHit then .ok (.jstr "Fluffy")
      else do
        let d := jsField schema "description"
        let dHit ←
          if truthy d then
            match d with
            | .jstr s => pure (strHasSub (toLowerStr s) "status")
            | _ => Except.error "TypeError: toLowerCase is not a function"
          else pure false
        if dHit then .ok (.jstr "available")
        else .ok (jsOr (jsField schema "default") (.jstr "string"))

/-- The body of generateExampleFromSchema, structurally recursive on the fuel
remaining before the depth guard (depth greater than 5) fires; fuel 0 is the
guard itself, which still lets the falsy-schema check run first, exactly as
in the source. Branch order matches the source: falsy schema, depth guard,
explicit example, ref resolution, allOf, oneOf, anyOf, then the type switch. -/
def genFuel (spec : JsVal) : Nat → JsVal → Except String JsVal
  | 0, schema =>
      if truthy schema = false then .ok (.jstr "") else .ok (.jstr "...")
  | f + 1, schema =>
    if truthy schema = false then .ok (.jstr "") else
    let ex := jsField schema "example"
    if isUndef ex = false then .ok ex else
    let rf := jsField schema "$ref"
    if truthy rf then
      (if truthy spec then
        match rf with
        | .jstr r =>
            let res := resolveSchemaRef r spec
            if truthy res then genFuel spec f res
            else .ok (.jstr ("<ref: " ++ jsToDisplay rf ++ ">"))
        | _ => .error "TypeError: ref.startsWith is not a function"
      else .ok (.jstr ("<ref: " ++ jsToDisplay rf ++ ">")))
    else
    let allOfv := jsField schema "allOf"
    if compActive allOfv then do
      let sel ← compSelect spec allOfv
      genFuel spec f sel
    else
    let oneOfv := jsField schema "oneOf"
    if compActive oneOfv then do
      let sel ← compSelect spec oneOfv
      genFuel spec f sel
    else
    let anyOfv := jsField schema "anyOf"
    if compActive anyOfv then do
      let sel ← compSelect spec anyOfv
      genFuel spec f sel
    else
    match jsField schema "type" with
    | .jstr "string" => genStringCase schema
    | .jstr "integer" =>
        let en := jsField schema "enum"
        if truthy en then .ok (idx0 en)
        else
          .ok (jsOr (jsField schema "default")
                (jsOr (jsField schema "minimum")
                  (jsOr (jsField schema "maximum") (.jnum 1))))
    | .jstr "number" =>
        let en := jsField schema "enum"
        if truthy en then .ok (idx0 en)
        else
          .ok (jsOr (jsField schema "default")
                (jsOr (jsField schema "minimum")
                  (jsOr (jsField schema "maximum") (.jnum 1))))
    | .jstr "boolean" =>
        let d := jsField schema "default"
        if isUndef d then .ok (.jbool true) else .ok d
    | .jstr "array" =>
        let it := jsField schema "items"
        if truthy it then do
          let itemEx ← genFuel spec f it
          let mi := jsOr (jsField schema "minItems") (.jnum 1)
          match toNumber mi with
          | some q =>
              let m := min q 3
              if 0 ≤ m ∧ m.den = 1 then .ok (.jarr (List.replicate m.num.toNat itemEx))
              else .error "RangeError: Invalid array length"
          | none => .error "RangeError: Invalid array length"
        else .ok (.jarr [])
    | .jstr "object" =>
        let p := jsField schema "properties"
        if truthy p then do
          let entries := objEntries p
          let vs ← genProps (fun v => genFuel spec f v) (jsField schema "required")
                     entries.length entries
          .ok (.jobj vs)
        else .ok (.jobj [])
    | _ =>
        let p := jsField schema "properties"
        if truthy p then do
          let entries := objEntries p
          let vs ← genProps (fun v => genFuel spec f v) (jsField schema "required")
                     entries.length entries
          .ok (.jobj vs)
        else
          let it := jsField schema "items"
          if truthy it then do
            let itemEx ← genFuel spec f it
            .ok (.jarr [itemEx])
          else
            let en := jsField schema "enum"
            if truthy en then .ok (idx0 en)
            else .ok (jsOr (jsField schema "default") (.jstr ""))

/-- App.tsx generateExampleFromSchema(schema, depth): the depth guard fires
once depth exceeds 5, so a call at depth d has 6 - d levels of recursion
available. The original call sites use depth 0. -/
def generateExampleFromSchema (spec schema : JsVal) (depth : Nat) : Except String JsVal :=
  genFuel spec (6 - depth) schema

/-! ## The JSON validator/repairer (SpekAiPanel._extractJSON,
_cleanupJSONString, _validateAndFormatJSON) -/

/-- Index of the first occurrence of a character in a list. -/
def firstIdx (c : Char) : List Char → Option Nat
  | [] => none
  | x :: rest =>
      if x = c then some 0
      else (firstIdx c rest).map (fun n => n + 1)

/-- Index of the last occurrence of a character in a list. -/
def lastIdx (c : Char) (l : List Char) : Option Nat :=
  (firstIdx c l.reverse).map (fun k => l.length - 1 - k)

/-- The greedy brace-delimited span the extraction regex matches: from the
first opening brace to the last closing brace of the whole text, provided the
last closing brace comes after the first opening brace (otherwise there is no
match at all). -/
def braceSpan (s : String) : Option String :=
  let l := s.toList
  match firstIdx '\x7b' l, lastIdx '\x7d' l with
  | some i, some j => if i < j then some (String.mk ((l.drop i).take (j - i + 1))) else none
  | _, _ => none

/-- The analogous greedy bracket-delimited span for arrays. -/
def bracketSpan (s : String) : Option String :=
  let l := s.toList
  match firstIdx '[' l, lastIdx ']' l with
  | some i, some j => if i < j then some (String.mk ((l.drop i).take (j - i + 1))) else none
  | _, _ => none

/-- SpekAiPanel._extractJSON: an empty text throws (surfaced with the
extraction-failed prefix); otherwise the first greedy object span, else the
first greedy array span, else the trimmed raw text. -/
def extractJSON (text : String) : Except String String :=
  if text = "" then
    .error "JSON extraction failed: Invalid text input for JSON extraction"
  else
    match braceSpan text with
    | some s => .ok s
    | none =>
      match bracketSpan text with
      | some s => .ok s
      | none => .ok (trimStr text)

/-- One right-to-left step of the trailing-comma removal: the Bool records
whether the output built so far begins with optional whitespace followed by a
closing brace or bracket, which is exactly when a comma read next is part of
a match of the global replace and is dropped (the replacement keeps the
whitespace and closer but is not rescanned, so the flag resets). -/
def rtcStep (c : Char) (st : List Char × Bool) : List Char × Bool :=
  let out := st.1
  let pending := st.2
  if c = ',' then (if pending then out else c :: out, false)
  else if c = '\x7d' || c = ']' then (c :: out, true)
  else if isWsChar c then (c :: out, pending)
  else (c :: out, false)

/-- Remove every trailing comma immediately preceding (up to whitespace) a
closing brace or bracket: the global regex replace of the source, computed in
one right-to-left pass. -/
def removeTrailingCommas (s : String) : String :=
  String.mk (s.toList.foldr rtcStep ([], false)).1

/-- Cut a single line at its first line-comment marker. -/
def cutLineAux : List Char → List Char
  | '/' :: '/' :: _ => []
  | c :: rest => c :: cutLineAux rest
  | [] => []

/-- Strip line comments: on every line, drop everything from the first
double-slash to the end of the line (the multiline regex replace). -/
def removeLineComments (s : String) : String :=
  String.intercalate "\n" ((splitChars '\n' s.toList).map (fun l => String.mk (cutLineAux l)))

/-- Strip block comments lazily (shortest match to the next closing marker);
an opener with no closer anywhere is not a match and is kept verbatim, which
the buffer argument reproduces: it holds the consumed characters in reverse
and is flushed back if the input ends inside a comment. -/
def rbcGo : List Char → Option (List Char) → List Char
  | [], none => []
  | [], some buf => buf.reverse
  | '*' :: '/' :: rest, some _ => rbcGo rest none
  | c :: rest, some buf => rbcGo rest (some (c :: buf))
  | '/' :: '*' :: rest, none => rbcGo rest (some ['*', '/'])
  | c :: rest, none => c :: rbcGo rest none

/-- Strip block comments from a string. -/
def removeBlockComments (s : String) : String := String.mk (rbcGo s.toList none)

/-- SpekAiPanel._cleanupJSONString: trailing-comma removal, then line
comments, then block comments, then trim. -/
def cleanupJSONString (s : String) : String :=
  trimStr (removeBlockComments (removeLineComments (removeTrailingCommas s)))

/-! ### JSON.parse and JSON.stringify -/

/-- JSON insignificant whitespace (space, tab, newline, carriage return). -/
def jsonWsChar (c : Char) : Bool :=
  c = ' ' || c = '\t' || c = '\n' || c = '\r'

/-- Skip JSON whitespace. -/
def skipWs (l : List Char) : List Char := l.dropWhile jsonWsChar

/-- An integer as an exact rational, built so the kernel can evaluate it. -/
def ratOfInt (n : Int) : Rat := ⟨n, 1, one_ne_zero, Nat.coprime_one_right _⟩

/-- Hexadecimal digit value for unicode escapes. -/
def hexVal (c : Char) : Option Nat :=
  let n := c.toNat
  if 48 ≤ n ∧ n ≤ 57 then some (n - 48)
  else if 97 ≤ n ∧ n ≤ 102 then some (n - 87)
  else if 65 ≤ n ∧ n ≤ 70 then some (n - 55)
  else none

/-- JSON string-literal body: characters up to the closing quote, with the
standard escapes; raw control characters and bad escapes are parse errors,
as in JSON.parse. -/
def parseStringLit : List Char → Except String (String × List Char)
  | [] => .error "Unterminated string in JSON"
  | '"' :: rest => .ok ("", rest)
  | '\\' :: e :: rest =>
      (match e, rest with
       | '"', r => (parseStringLit r).map (fun p => ("\"" ++ p.1, p.2))
       | '\\', r => (parseStringLit r).map (fun p => ("\\" ++ p.1, p.2))
       | '/', r => (parseStringLit r).map (fun p => ("/" ++ p.1, p.2))
       | 'b', r => (parseStringLit r).map (fun p => ("\x08" ++ p.1, p.2))
       | 'f', r => (parseStringLit r).map (fun p => ("\x0c" ++ p.1, p.2))
       | 'n', r => (parseStringLit r).map (fun p => ("\n" ++ p.1, p.2))
       | 'r', r => (parseStringLit r).map (fun p => ("\r" ++ p.1, p.2))
       | 't', r => (parseStringLit r).map (fun p => ("\t" ++ p.1, p.2))
       | 'u', h1 :: h2 :: h3 :: h4 :: r =>
         (match hexVal h1, hexVal h2, hexVal h3, hexVal h4 with
          | some a, some b, some c, some d =>
            (parseStringLit r).map
              (fun p => (String.mk [Char.ofNat (((a * 16 + b) * 16 + c) * 16 + d)] ++ p.1, p.2))
          | _, _, _, _ => .error "Bad unicode escape in JSON")
       | _, _ => .error "Bad escape in JSON")
  | c :: rest =>
      if c.toNat < 32 then .error "Bad control character in JSON string"
      else (parseStringLit rest).map (fun p => (String.mk [c] ++ p.1, p.2))

/-- Digits of a JSON number component. -/
def takeDigits (l : List Char) : List Char × List Char :=
  (l.takeWhile (fun c => '0' ≤ c && c ≤ '9'), l.dropWhile (fun c => '0' ≤ c && c ≤ '9'))

/-- A JSON number: optional minus, integer digits, optional fraction and
exponent. The common integer form is built without rational arithmetic so
that the kernel evaluates it; fraction and exponent forms use the field
operations. -/
def parseNumber (l : List Char) : Except String (Rat × List Char) :=
  let (neg, l1) := match l with
                   | '-' :: rest => (true, rest)
                   | _ => (false, l)
  let (ds, l2) := takeDigits l1
  match ds with
  | [] => .error "Unexpected token in JSON number"
  | _ =>
    match digitsValAux 0 ds with
    | none => .error "Unexpected token in JSON number"
    | some n =>
      let (fracPresent, fds, l3) :=
        match l2 with
        | '.' :: rest => (true, (takeDigits rest).1, (takeDigits rest).2)
        | _ => (false, [], l2)
      if fracPresent && fds.isEmpty then
        .error "Unexpected token in JSON number"
      else
        let (hasExp, eneg, eds, l4) :=
          match l3 with
          | 'e' :: '-' :: rest => (true, true, (takeDigits rest).1, (takeDigits rest).2)
          | 'e' :: '+' :: rest => (true, false, (takeDigits rest).1, (takeDigits rest).2)
          | 'e' :: rest => (true, false, (takeDigits rest).1, (takeDigits rest).2)
          | 'E' :: '-' :: rest => (true, true, (takeDigits rest).1, (takeDigits rest).2)
          | 'E' :: '+' :: rest => (true, false, (takeDigits rest).1, (takeDigits rest).2)
          | 'E' :: rest => (true, false, (takeDigits rest).1, (takeDigits rest).2)
          | _ => (false, false, [], l3)
        if hasExp && eds.isEmpty then .error "Unexpected token in JSON number"
        else
          let base : Rat :=
            if fds = [] then ratOfInt (if neg then -(n : Int) else (n : Int))
            else
              let m := digitsValAux n fds |>.getD 0
              let sgn : Rat := if neg then -1 else 1
              sgn * (m : Rat) / ((10 : Rat) ^ fds.length)
          let scaled : Rat :=
            if hasExp then
              let e := (digitsValAux 0 eds).getD 0
              if eneg then base / ((10 : Rat) ^ e) else base * ((10 : Rat) ^ e)
            else base
          .ok (scaled, l4)

mutual

/-- JSON.parse value dispatch, structurally recursive on fuel; the top-level
wrapper passes fuel larger than the input length, which every nesting level
and member consumes from, so exhaustion is unreachable on wrapper calls. -/
def parseVal : Nat → List Char → Except String (JsVal × List Char)
  | 0, _ => .error "JSON input too deeply nested"
  | f + 1, l =>
    match skipWs l with
    | [] => .error "Unexpected end of JSON input"
    | 'n' :: rest =>
        if leadsWith ['u', 'l', 'l'] rest then .ok (.jnull, rest.drop 3)
        else .error "Unexpected token in JSON"
    | 't' :: rest =>
        if leadsWith ['r', 'u', 'e'] rest then .ok (.jbool true, rest.drop 3)
        else .error "Unexpected token in JSON"
    | 'f' :: rest =>
        if leadsWith ['a', 'l', 's', 'e'] rest then .ok (.jbool false, rest.drop 4)
        else .error "Unexpected token in JSON"
    | '"' :: rest => (parseStringLit rest).map (fun p => (.jstr p.1, p.2))
    | '[' :: rest =>
        (match skipWs rest with
         | ']' :: r2 => .ok (.jarr [], r2)
         | _ => do
             let (xs, r2) ← parseElems f rest
             .ok (.jarr xs, r2))
    | '\x7b' :: rest =>
        (match skipWs rest with
         | '\x7d' :: r2 => .ok (.jobj [], r2)
         | _ => do
             let (ms, r2) ← parseMembers f rest
             .ok (.jobj ms, r2))
    | l2 => (parseNumber l2).map (fun p => (.jnum p.1, p.2))

/-- Array elements: value, then comma and more elements or the closing
bracket. -/
def parseElems : Nat → List Char → Except String (List JsVal × List Char)
  | 0, _ => .error "JSON input too deeply nested"
  | f + 1, l => do
      let (v, r) ← parseVal f l
      match skipWs r with
      | ',' :: r2 => do
          let (xs, r3) ← parseElems f r2
          .ok (v :: xs, r3)
      | ']' :: r2 => .ok ([v], r2)
      | _ => .error "Expected comma or closing bracket in JSON array"

/-- Object members: quoted key, colon, value, then comma and more members or
the closing brace. -/
def parseMembers : Nat → List Char → Except String (List (String × JsVal) × List Char)
  | 0, _ => .error "JSON input too deeply nested"
  | f + 1, l =>
      match skipWs l with
      | '"' :: rest => do
          let (k, r) ← parseStringLit rest
          match skipWs r with
          | ':' :: r2 => do
              let (v, r3) ← parseVal f r2
              match skipWs r3 with
              | ',' :: r4 => do
                  let (ms, r5) ← parseMembers f r4
                  .ok ((k, v) :: ms, r5)
              | '\x7d' :: r4 => .ok ([(k, v)], r4)
              | _ => .error "Expected comma or closing brace in JSON object"
          | _ => .error "Expected colon in JSON object"
      | _ => .error "Expected string key in JSON object"

end

/-- JSON.parse: parse one value and require only whitespace to remain. -/
def jsonParse (s : String) : Except String JsVal :=
  let l := s.toList
  match parseVal (2 * l.length + 2) l with
  | .ok (v, rest) =>
      if (skipWs rest).isEmpty then .ok v
      else .error "Unexpected non-whitespace character after JSON data"
  | .error e => .error e

/-- Lower-case hexadecimal digit character. -/
def hexDigitChar (n : Nat) : Char :=
  if n < 10 then Char.ofNat ('0'.toNat + n) else Char.ofNat ('a'.toNat + (n - 10))

/-- Escape a string body for JSON output, as JSON.stringify does. -/
def escapeJsonChars : List Char → String
  | [] => ""
  | c :: rest =>
      (if c = '"' then "\\\""
       else if c = '\\' then "\\\\"
       else if c = '\n' then "\\n"
       else if c = '\t' then "\\t"
       else if c = '\r' then "\\r"
       else if c = '\x08' then "\\b"
       else if c = '\x0c' then "\\f"
       else if c.toNat < 32 then
         "\\u00" ++ String.mk [(hexDigitChar (c.toNat / 16)), (hexDigitChar (c.toNat % 16))]
       else String.mk [c]) ++ escapeJsonChars rest

/-- Indentation of 2-space levels for pretty printed output. -/
def indentStr (level : Nat) : String := String.mk (List.replicate (2 * level) ' ')

mutual

/-- JSON.stringify(v, null, 2): pretty printing with two-space indentation.
Undefined never occurs in a parsed value; inside arrays it prints as null and
object members holding it are skipped, as JSON.stringify does. -/
def stringifyVal (level : Nat) : JsVal → String
  | .undef => "null"
  | .jnull => "null"
  | .jbool b => if b then "true" else "false"
  | .jnum q => ratDisplay q
  | .jstr s => "\"" ++ escapeJsonChars s.toList ++ "\""
  | .jarr [] => "[]"
  | .jarr (x :: xs) =>
      "[\n" ++ String.intercalate ",\n" (elemPieces (level + 1) (x :: xs)) ++
        "\n" ++ indentStr level ++ "]"
  | .jobj fs =>
      match memberPieces (level + 1) fs with
      | [] => "\x7b\x7d"
      | p :: ps =>
          "\x7b\n" ++ String.intercalate ",\n" (p :: ps) ++ "\n" ++ indentStr level ++ "\x7d"

/-- Rendered array elements, each on its own indented line. -/
def elemPieces (level : Nat) : List JsVal → List String
  | [] => []
  | x :: rest => (indentStr level ++ stringifyVal level x) :: elemPieces level rest

/-- Rendered object members, keys quoted; members holding undefined are
omitted, as JSON.stringify does. -/
def memberPieces (level : Nat) : List (String × JsVal) → List String
  | [] => []
  | (k, v) :: rest =>
      if isUndef v then memberPieces level rest
      else
        (indentStr level ++ "\"" ++ escapeJsonChars k.toList ++ "\": " ++ stringifyVal level v) ::
          memberPieces level rest

end

/-- typeof for the validation check. -/
def typeofStr : JsVal → String
  | .undef => "undefined"
  | .jnull => "object"
  | .jbool _ => "boolean"
  | .jnum _ => "number"
  | .jstr _ => "string"
  | .jarr _ => "object"
  | .jobj _ => "object"

/-- SpekAiPanel._validateAndFormatJSON: trim, reject the literal
object-Object sentinel, clean up, parse, require a non-null object or array,
and return the two-space pretty printing. Every failure carries the
validation-failed prefix the catch block adds. -/
def validateAndFormatJSON (jsonString : String) : Except String String :=
  let t := trimStr jsonString
  if t = "[object Object]" then
    .error "JSON validation failed: Received \"[object Object]\" instead of valid JSON - completion item was not properly converted"
  else
    let cleaned := cleanupJSONString t
    match jsonParse cleaned with
    | .error e => .error ("JSON validation failed: " ++ e)
    | .ok v =>
      match v with
      | .jobj _ => .ok (stringifyVal 0 v)
      | .jarr _ => .ok (stringifyVal 0 v)
      | _ =>
          .error ("JSON validation failed: Generated JSON is not a valid object or array, got: "
            ++ typeofStr v)

/-- The repairer of specification section 4.7: extraction followed by
cleanup, parse and validation - the composition of _extractJSON and
_validateAndFormatJSON. -/
def repairJSON (text : String) : Except String String :=
  match extractJSON text with
  | .ok s => validateAndFormatJSON s
  | .error e => .error e

/-! ## The generation orchestrator (SpekAiPanel._generateLLMJson,
_generateWithClaude) -/

/-- What _generateLLMJson posts back to the webview: the generated JSON text
with the provider that produced it, or the error text. -/
inductive LLMOut where
  | success (generatedJson : String) (provider : String)
  | failure (error : String)

/-- Whether the orchestrator posted an error. -/
def isFailure : LLMOut → Bool
  | .failure _ => true
  | _ => false

/-- SpekAiPanel._generateWithClaude as a function of its collaborators: the
configured API key and the outcome of the provider exchange. A missing key
and a failed exchange throw; a response never does - the largest
brace-delimited span is extracted when one exists, otherwise the raw
response text is returned, even if it is not JSON at all. -/
def generateWithClaude (apiKey : Option String) (providerCall : Except String String) :
    Except String String :=
  match apiKey with
  | none => .error "Claude API key not found. Please set it in VSCode settings (spekai.claudeApiKey) or ANTHROPIC_API_KEY environment variable."
  | some _ =>
    match providerCall with
    | .error e => .error e
    | .ok responseText =>
        match braceSpan responseText with
        | some s => .ok s
        | none => .ok responseText

/-- The terminal error message of _generateLLMJson when no phase produced a
value: the trimmed template naming every attempted provider, the last
underlying error (or the unknown-error fallback, also taken for an empty
message) and the provider availability. -/
def allFailedMsg (attempted : List String) (lastErr : Option String) (claudeAvail : Bool) :
    String :=
  "All providers failed to generate JSON. Attempted providers: " ++
    String.intercalate ", " attempted ++
    "\nLast error: " ++
    (match lastErr with
     | some e => if e = "" then "Unknown error" else e
     | none => "Unknown error") ++
    "\nProvider availability: Claude=" ++ (if claudeAvail then "true" else "false")

/-- SpekAiPanel._generateLLMJson as a function of its collaborators: whether
Claude is configured, the outcome of the Claude attempt, and the outcome of
the manual (local-synthesis) generation. Mirrors the source control flow:
Claude is tried when available; the manual phase runs only when the
generated text is still falsy (absent or empty); a still-falsy result
raises the all-providers-failed error; otherwise the text must parse as
JSON, a failure of which surfaces directly - without attempting the manual
phase when Claude already produced non-empty text. -/
def generateLLMJson (claudeAvail : Bool) (claudeCall manualCall : Except String String) :
    LLMOut :=
  let afterClaude : Option String × Option String × List String :=
    if claudeAvail then
      match claudeCall with
      | .ok j => (some j, none, ["claude"])
      | .error e => (none, some e, ["claude"])
    else (none, none, [])
  let gen1 := afterClaude.1
  let err1 := afterClaude.2.1
  let att1 := afterClaude.2.2
  let gen1Falsy := match gen1 with
                   | none => true
                   | some s => decide (s = "")
  let afterManual : Option String × Option String × List String × String :=
    if gen1Falsy then
      match manualCall with
      | .ok j => (some j, err1, att1 ++ ["manual"], "Manual Generation")
      | .error e => (gen1, some e, att1 ++ ["manual"], "Claude")
    else (gen1, err1, att1, "Claude")
  let gen2 := afterManual.1
  let err2 := afterManual.2.1
  let att2 := afterManual.2.2.1
  let provider := afterManual.2.2.2
  match gen2 with
  | none => .failure ("AI generation failed: " ++ allFailedMsg att2 err2 claudeAvail)
  | some g =>
      if g = "" then .failure ("AI generation failed: " ++ allFailedMsg att2 err2 claudeAvail)
      else
        match jsonParse g with
        | .error pe =>
            .failure ("AI generation failed: Generated content is not valid JSON: " ++ pe)
        | .ok _ => .success g provider

/-! ## The realistic data synthesizer (SpekAiPanel locale pools,
_resolveSchemaRef, _generateExampleValue, _generateRealisticValueFromSchema) -/

/-- The explicit default name pool. -/
def defaultNames : List String :=
  ["Alex Smith", "Jordan Brown", "Casey Davis", "Taylor Wilson", "Morgan Jones"]

/-- The locale-keyed name pools of _getLocaleNames. -/
def localeNamesTable : List (String × List String) :=
  [("en-US", ["John Smith", "Sarah Johnson", "Michael Brown", "Emily Davis", "David Wilson",
              "Jessica Miller"]),
   ("es-ES", ["Carlos García", "María López", "José Martínez", "Carmen Rodríguez",
              "Antonio González"]),
   ("fr-FR", ["Jean Dupont", "Marie Martin", "Pierre Bernard", "Sophie Dubois",
              "Michel Robert"]),
   ("de-DE", ["Hans Mueller", "Anna Schmidt", "Peter Weber", "Sabine Fischer",
              "Thomas Wagner"]),
   ("ja-JP", ["田中太郎", "佐藤花子", "鈴木一郎", "高橋美咲", "渡辺健太"]),
   ("default", defaultNames)]

/-- _getLocaleNames, names[locale] || names['default']: the pool under the
exact own key, else the default pool. At a locale equal to an inherited
Object.prototype member name (protoKeys) the source read returns that
truthy function instead of falling back; such codes are outside this
embedding and excluded by hypothesis in the statements below. -/
def getLocaleNames (locale : String) : List String :=
  (localeNamesTable.lookup locale).getD defaultNames

/-- The explicit default company pool. -/
def defaultCompanies : List String :=
  ["Tech Company", "Digital Solutions", "Innovation Corp", "Modern Systems", "Advanced Tech"]

/-- The locale-keyed company pools of _getLocaleCompanies. -/
def localeCompaniesTable : List (String × List String) :=
  [("en-US", ["TechCorp", "DataSystems Inc", "Innovation Labs", "Global Solutions",
              "NextGen Tech"]),
   ("es-ES", ["Tecnología SA", "Innovación Digital", "Sistemas Globales", "Desarrollo Tech",
              "Soluciones Pro"]),
   ("fr-FR", ["TechnoFrance", "Solutions Numériques", "Innovation SA", "Systèmes Avancés",
              "Digital Pro"]),
   ("de-DE", ["TechGmbH", "Innovation Systems", "Digital Solutions", "Advanced Tech",
              "Modern Systems"]),
   ("ja-JP", ["テクノロジー株式会社", "イノベーション・ラボ", "デジタル・ソリューションズ",
              "アドバンステック"]),
   ("default", defaultCompanies)]

/-- _getLocaleCompanies, companies[locale] || companies['default']: the
pool under the exact own key, else the default; locales naming inherited
Object.prototype members are outside the embedding, as for the names. -/
def getLocaleCompanies (locale : String) : List String :=
  (localeCompaniesTable.lookup locale).getD defaultCompanies

/-- The explicit default city pool. -/
def defaultCities : List String :=
  ["Metropolis", "Central City", "Downtown", "Riverside", "Hillside", "Parkview"]

/-- The locale-keyed city pools of _getLocaleCities. -/
def localeCitiesTable : List (String × List String) :=
  [("en-US", ["New York", "Los Angeles", "Chicago", "Houston", "Phoenix", "Philadelphia"]),
   ("es-ES", ["Madrid", "Barcelona", "Valencia", "Sevilla", "Zaragoza", "Málaga"]),
   ("fr-FR", ["Paris", "Lyon", "Marseille", "Toulouse", "Nice", "Nantes"]),
   ("de-DE", ["Berlin", "Hamburg", "München", "Köln", "Frankfurt", "Stuttgart"]),
   ("ja-JP", ["東京", "大阪", "名古屋", "横浜", "京都", "福岡"]),
   ("default", defaultCities)]

/-- _getLocaleCities, cities[locale] || cities['default']: the pool under
the exact own key, else the default; locales naming inherited
Object.prototype members are outside the embedding, as for the names. -/
def getLocaleCities (locale : String) : List String :=
  (localeCitiesTable.lookup locale).getD defaultCities

/-- The randomness and clock collaborators of the synthesizer: the i-th
Math.random() draw, and the external Date formatting (ISO date a number of
days back, ISO timestamp a number of hours back). -/
structure SynthEnv where
  rand : Nat → Rat
  isoDateMinusDays : Nat → String
  isoMinusHours : Nat → String

/-- Replace (or append) a field, as an object spread overriding one key. -/
def setField : List (String × JsVal) → String → JsVal → List (String × JsVal)
  | [], k, v => [(k, v)]
  | (k0, v0) :: rest, k, v =>
      if k0 = k then (k, v) :: rest else (k0, v0) :: setField rest k v

/-- The unresolved-reference placeholder schema of _resolveSchemaRef. -/
def placeholderSchema (refPath : String) : JsVal :=
  .jobj [("type", .jstr "object"),
         ("description", .jstr ("Referenced schema: " ++ refPath)),
         ("properties", .jobj
           [("id", .jobj [("type", .jstr "string"), ("example", .jstr "example-id")]),
            ("name", .jobj [("type", .jstr "string"), ("example", .jstr "Example Name")])])]

/-- The body of SpekAiPanel._resolveSchemaRef: a truthy ref is resolved by
_getSchemaFromRef (and replaced by the placeholder schema when unresolved,
with no further recursion into the resolution); otherwise nested refs inside
properties values (or else inside items) are resolved recursively, the copy
keeping every other field. A truthy non-string ref throws when
_getSchemaFromRef calls startsWith on it. The recursion is structural on the
schema, so fuel at least the schema's size is exact. -/
def resolveSchemaRefP (spec : JsVal) : Nat → JsVal → Except String JsVal
  | 0, _ => .error "RangeError: Maximum call stack size exceeded"
  | f + 1, schema =>
    if truthy schema = false then .ok schema
    else
      let rf := jsField schema "$ref"
      if truthy rf then
        match rf with
        | .jstr r =>
            let res := getSchemaFromRef spec r
            if truthy res then .ok res else .ok (placeholderSchema r)
        | _ => .error "TypeError: refPath.startsWith is not a function"
      else
        let p := jsField schema "properties"
        if truthy p then do
          let resolvedProps ← mapExceptKV (fun v => resolveSchemaRefP spec f v) (objEntries p)
          match schema with
          | .jobj fs => .ok (.jobj (setField fs "properties" (.jobj resolvedProps)))
          | _ => .ok schema
        else
          let it := jsField schema "items"
          if truthy it then do
            let resolvedItems ← resolveSchemaRefP spec f it
            match schema with
            | .jobj fs => .ok (.jobj (setField fs "items" resolvedItems))
            | _ => .ok schema
          else .ok schema

mutual

/-- A computable size of a value, bounding the nesting depth, used to give
structurally recursive source functions enough fuel to behave exactly. -/
def jsSize : JsVal → Nat
  | .jarr xs => 1 + jsSizeList xs
  | .jobj fs => 1 + jsSizeFields fs
  | _ => 1

/-- Size over array elements. -/
def jsSizeList : List JsVal → Nat
  | [] => 0
  | x :: xs => jsSize x + jsSizeList xs

/-- Size over object fields. -/
def jsSizeFields : List (String × JsVal) → Nat
  | [] => 0
  | (_, v) :: rest => jsSize v + jsSizeFields rest

end

/-- _resolveSchemaRef with fuel covering the whole (structural) recursion. -/
def resolveSchemaRefFull (spec schema : JsVal) : Except String JsVal :=
  resolveSchemaRefP spec (jsSize schema + 1) schema

/-- The property loop of _generateExampleFromSchema, parameterized by the
per-property generator. -/
def examplePropsWith (g : JsVal → Option String → Except String JsVal) :
    List (String × JsVal) → Except String (List (String × JsVal))
  | [] => .ok []
  | (k, v) :: rest => do
      let val ← g v (some k)
      let tail ← examplePropsWith g rest
      .ok ((k, val) :: tail)

mutual

/-- SpekAiPanel._generateExampleValue: an explicit example wins; then fixed
literals per type with small field-name heuristics for strings; numbers take
the truthy minimum or 1; objects delegate to _generateExampleFromSchema.
Reading the example field of null or undefined throws. Fuel models the
JavaScript call stack (a cyclically resolving schema overflows it). -/
def generateExampleValueP (spec : JsVal) : Nat → JsVal → Option String → Except String JsVal
  | 0, _, _ => .error "RangeError: Maximum call stack size exceeded"
  | f + 1, schema, fieldName =>
    match schema with
    | .jnull => .error "TypeError: cannot read field of null"
    | .undef => .error "TypeError: cannot read field of undefined"
    | _ =>
      let ex := jsField schema "example"
      if isUndef ex = false then .ok ex
      else
        match jsField schema "type" with
        | .jstr "string" =>
            let fm := jsField schema "format"
            if formatIs fm "email" then .ok (.jstr "user@example.com")
            else if formatIs fm "date" then .ok (.jstr "2023-12-01")
            else if formatIs fm "date-time" then .ok (.jstr "2023-12-01T10:00:00Z")
            else
              (match fieldName with
               | some fn =>
                   if strHasSub (toLowerStr fn) "name" then .ok (.jstr "John Doe")
                   else if strHasSub (toLowerStr fn) "id" then .ok (.jstr "abc123")
                   else .ok (.jstr "example value")
               | none => .ok (.jstr "example value"))
        | .jstr "integer" => .ok (jsOr (jsField schema "minimum") (.jnum 1))
        | .jstr "number" => .ok (jsOr (jsField schema "minimum") (.jnum 1))
        | .jstr "boolean" => .ok (.jbool true)
        | .jstr "array" =>
            let it := jsField schema "items"
            if truthy it then do
              let v ← generateExampleValueP spec f it none
              .ok (.jarr [v])
            else .ok (.jarr [])
        | .jstr "object" => generateExampleFromSchemaP spec f schema
        | _ => .ok (.jstr "example")

/-- SpekAiPanel._generateExampleFromSchema: empty object for values that are
falsy or not typeof object; otherwise resolve refs, then build an object
from the (resolved) properties through _generateExampleValue, passing each
key down for the heuristics. -/
def generateExampleFromSchemaP (spec : JsVal) : Nat → JsVal → Except String JsVal
  | 0, _ => .error "RangeError: Maximum call stack size exceeded"
  | f + 1, schema =>
    if truthy schema = false then .ok (.jobj [])
    else if isObjectTypeof schema = false then .ok (.jobj [])
    else do
      let resolved ← resolveSchemaRefFull spec schema
      if truthy resolved = false then .ok (.jobj [])
      else
        let p := jsField resolved "properties"
        if truthy p then do
          let ms ← examplePropsWith (fun v fn => generateExampleValueP spec f v fn) (objEntries p)
          .ok (.jobj ms)
        else .ok (.jobj [])

end

/-- SpekAiPanel._generateRealisticString: format-specific generation (email
from a random name and company, dates offset back from now, a version-4
shaped uuid), then field-name heuristics over the locale pools, then uniform
enum choice, then a field-tagged placeholder. Returns the value and the next
random index. -/
def genRealisticString (env : SynthEnv) (schema : JsVal) (fieldName : Option String)
    (names companies cities : List String) (i : Nat) : JsVal × Nat :=
  let fm := jsField schema "format"
  if formatIs fm "email" then
    let pick1 := ((env.rand i * (names.length : Nat)).floor).toNat
    let pick2 := ((env.rand (i + 1) * (companies.length : Nat)).floor).toNat
    let name := match names.get? pick1 with
                | some s => if s = "" then "user" else s
                | none => "user"
    let company := match companies.get? pick2 with
                   | some s => if s = "" then "example" else s
                   | none => "example"
    let cleanName := String.mk ((toLowerStr name).toList.filter (fun c => 'a' ≤ c && c ≤ 'z'))
    let cleanCompany :=
      String.mk ((toLowerStr company).toList.filter (fun c => 'a' ≤ c && c ≤ 'z'))
    (.jstr (cleanName ++ "@" ++ cleanCompany ++ ".com"), i + 2)
  else if formatIs fm "date" then
    (.jstr (env.isoDateMinusDays ((env.rand i * 365).floor).toNat), i + 1)
  else if formatIs fm "date-time" then
    (.jstr (env.isoMinusHours ((env.rand i * 720).floor).toNat), i + 1)
  else if formatIs fm "uuid" then
    let step := fun (c : Char) (st : String × Nat) =>
      if c = 'x' then
        ((st.1.push (hexDigitChar (((env.rand st.2 * 16).floor).toNat % 16))), st.2 + 1)
      else if c = 'y' then
        ((st.1.push (hexDigitChar ((((env.rand st.2 * 16).floor).toNat % 16) % 4 + 8))),
          st.2 + 1)
      else (st.1.push c, st.2)
    let r := "xxxxxxxx-xxxx-4xxx-yxxx-xxxxxxxxxxxx".toList.foldl (fun st c => step c st) ("", i)
    (.jstr r.1, r.2)
  else
    let fnHit : Option (JsVal × Nat) :=
      match fieldName with
      | none => none
      | some fn =>
        let lower := toLowerStr fn
        if strHasSub lower "name" then
          some (match names.get? ((env.rand i * (names.length : Nat)).floor).toNat with
                | some s => (.jstr s, i + 1)
                | none => (.undef, i + 1))
        else if strHasSub lower "company" then
          some (match companies.get? ((env.rand i * (companies.length : Nat)).floor).toNat with
                | some s => (.jstr s, i + 1)
                | none => (.undef, i + 1))
        else if strHasSub lower "city" then
          some (match cities.get? ((env.rand i * (cities.length : Nat)).floor).toNat with
                | some s => (.jstr s, i + 1)
                | none => (.undef, i + 1))
        else if strHasSub lower "status" then
          some (match ["active", "inactive", "pending", "completed",
                       "draft"].get? ((env.rand i * 5).floor).toNat with
                | some s => (.jstr s, i + 1)
                | none => (.undef, i + 1))
        else if strHasSub lower "phone" then
          some (.jstr ("+1-555-" ++ toString ((env.rand i * 9000 + 1000).floor)), i + 1)
        else none
    match fnHit with
    | some r => r
    | none =>
      let en := jsField schema "enum"
      if compActive en then
        (jsField en (toString (((env.rand i * ((jsLen en).getD 0 : Nat)).floor).toNat)), i + 1)
      else
        match fieldName with
        | some fn => (.jstr ("example_" ++ fn), i)
        | none => (.jstr "example_value", i)

/-- Numeric coercion for bound arithmetic: non-numbers give NaN in the
source; the verified properties never depend on that branch, which is
approximated by 0 here. -/
def ratOfJs : JsVal → Rat
  | .jnum q => q
  | _ => 0

/-- SpekAiPanel._generateRealisticNumber: field-name heuristics (5-digit
ids, ages 18 to 67, currency-like prices, counts 1 to 100), then bounds from
minimum/maximum when present, then a bounded random default (an integer for
integer schemas, two decimals otherwise). -/
def genRealisticNumber (env : SynthEnv) (schema : JsVal) (fieldName : Option String)
    (i : Nat) : JsVal × Nat :=
  let fnHit : Option (JsVal × Nat) :=
    match fieldName with
    | none => none
    | some fn =>
      let lower := toLowerStr fn
      if strHasSub lower "id" then
        some (.jnum (ratOfInt ((env.rand i * 90000).floor + 10000)), i + 1)
      else if strHasSub lower "age" then
        some (.jnum (ratOfInt ((env.rand i * 50).floor + 18)), i + 1)
      else if strHasSub lower "price" || strHasSub lower "cost" || strHasSub lower "amount" then
        some (.jnum ((round ((env.rand i * 1000 + 10) * 100) : Int) / (100 : Rat)), i + 1)
      else if strHasSub lower "quantity" || strHasSub lower "count" then
        some (.jnum (ratOfInt ((env.rand i * 100).floor + 1)), i + 1)
      else none
  match fnHit with
  | some r => r
  | none =>
    let mi := jsField schema "minimum"
    let ma := jsField schema "maximum"
    if isUndef mi = false && isUndef ma = false then
      (.jnum (env.rand i * (ratOfJs ma - ratOfJs mi) + ratOfJs mi), i + 1)
    else if isUndef mi = false then
      (.jnum (ratOfJs mi + env.rand i * 1000), i + 1)
    else if isUndef ma = false then
      (.jnum (env.rand i * ratOfJs ma), i + 1)
    else if formatIs (jsField schema "type") "integer" then
      (.jnum (ratOfInt ((env.rand i * 1000).floor + 1)), i + 1)
    else
      (.jnum ((round (env.rand i * 1000 * 100) : Int) / (100 : Rat)), i + 1)

mutual

/-- SpekAiPanel._generateRealisticValueFromSchema: an explicit example wins;
otherwise the three locale pools are fetched for the locale (with the
default-pool fallback) and the type dispatches to the realistic string or
number generator, a uniform random boolean, 1 to 3 synthesized items for
arrays, the per-property synthesis for objects, or _generateExampleValue
when the type is unknown. Fuel models the JavaScript call stack; running out
is the stack-overflow throw a cyclically resolving schema produces. -/
def generateRealisticValueFromSchema (env : SynthEnv) (spec : JsVal) :
    Nat → JsVal → String → Option String → Nat → Except String (JsVal × Nat)
  | 0, _, _, _, _ => .error "RangeError: Maximum call stack size exceeded"
  | f + 1, schema, locale, fieldName, i =>
    match schema with
    | .jnull => .error "TypeError: cannot read field of null"
    | .undef => .error "TypeError: cannot read field of undefined"
    | _ =>
      let ex := jsField schema "example"
      if isUndef ex = false then .ok (ex, i)
      else
        let names := getLocaleNames locale
        let companies := getLocaleCompanies locale
        let cities := getLocaleCities locale
        match jsField schema "type" with
        | .jstr "string" =>
            .ok (genRealisticString env schema fieldName names companies cities i)
        | .jstr "number" => .ok (genRealisticNumber env schema fieldName i)
        | .jstr "integer" => .ok (genRealisticNumber env schema fieldName i)
        | .jstr "boolean" =>
            .ok (.jbool (decide ((1 : Rat) / 2 < env.rand i)), i + 1)
        | .jstr "array" =>
            let it := jsField schema "items"
            if truthy it then do
              let count := (((env.rand i * 3).floor).toNat + 1)
              let (xs, i2) ← realisticItems env spec f it locale count (i + 1)
              .ok (.jarr xs, i2)
            else .ok (.jarr [], i)
        | .jstr "object" =>
            let p := jsField schema "properties"
            if truthy p then do
              let (ms, i2) ← realisticObjectProps env spec f (objEntries p) locale i
              .ok (.jobj ms, i2)
            else .ok (.jobj [], i)
        | _ => do
            let v ← generateExampleValueP spec f schema fieldName
            .ok (v, i)
termination_by f _ _ _ _ => (f, 0)

/-- The 1-to-3-item array loop of the synthesizer, threading the random
index; items recurse with no field name, as in the source. -/
def realisticItems (env : SynthEnv) (spec : JsVal) :
    Nat → JsVal → String → Nat → Nat → Except String (List JsVal × Nat)
  | _, _, _, 0, i => .ok ([], i)
  | f, it, locale, c + 1, i => do
      let (v, i2) ← generateRealisticValueFromSchema env spec f it locale none i
      let (xs, i3) ← realisticItems env spec f it locale c i2
      .ok (v :: xs, i3)
termination_by f _ _ c _ => (f, c + 1)

/-- The property loop of _generateRealisticObjectFromSchema: each property
schema goes through _resolveSchemaRef and then through the synthesizer with
the property name passed down for the heuristics. -/
def realisticObjectProps (env : SynthEnv) (spec : JsVal) :
    Nat → List (String × JsVal) → String → Nat → Except String (List (String × JsVal) × Nat)
  | _, [], _, i => .ok ([], i)
  | f, (k, v) :: rest, locale, i => do
      let pr ← resolveSchemaRefP spec (jsSize v + 1) v
      let (val, i2) ← generateRealisticValueFromSchema env spec f pr locale (some k) i
      let (ms, i3) ← realisticObjectProps env spec f rest locale i2
      .ok ((k, val) :: ms, i3)
termination_by f l _ _ => (f, l.length + 1)

end

/-! ## Definitions used only to state claims -/

/-- The specification's wording of the resolution walk, amended by the
truthiness observation of claim C6: apply successive mapping lookups and
fail closed (none) as soon as a step's value is absent or falsy. Written
from the claim's words, to be compared with the walk inside
resolveSchemaRef. -/
def specSegmentWalk : List String → JsVal → Option JsVal
  | [], cur => some cur
  | seg :: rest, cur =>
      if truthy cur && truthy (jsField cur seg) then specSegmentWalk rest (jsField cur seg)
      else none

/-- The specification's wording of resolveSchemaRef, amended as in claim
C6: a pointer resolves only when it begins with the hash-slash prefix, by
splitting the stripped remainder on slashes and walking the document;
unresolved is none. -/
def specRefLookup (ref : String) (doc : JsVal) : Option JsVal :=
  if startsWithHS ref "#/" then specSegmentWalk (splitOnChar (ref.drop 2) '/') doc else none

/-- The own-key read domain of the reference walks: every property read the
walk performs (each segment until the walk stops on a falsy current value
or a falsy step value) finds its segment as an own key of a plain object.
Outside this domain the JavaScript read current[segment] can reach an
inherited prototype member (constructor, toString, array and string
methods), a truthy function value the embedding cannot represent, so the
walk characterizations are stated on this domain only. -/
def ownKeyWalk : List String → JsVal → Bool
  | [], _ => true
  | seg :: rest, cur =>
      !truthy cur ||
      (match cur with
       | .jobj fsv =>
           keyPresent fsv seg &&
             (!truthy (lookupField fsv seg) || ownKeyWalk rest (lookupField fsv seg))
       | _ => false)

/-- The schema-node domain of the amended safety claim C1: a parsed-JSON
value (undefined cannot occur anywhere) that contains no ref key at any
nesting level, whose truthy enum fields are non-empty arrays, whose truthy
minItems fields are non-negative integer numbers, whose truthy required
fields are arrays, whose truthy title and description fields are strings,
and whose truthy allOf, oneOf and anyOf fields are arrays that do not start
with null. Each condition matches a JavaScript throw or undefined-result
the generator would otherwise produce (a non-array composition value - a
string, or an object with a numeric length property - would activate the
composition branch and recurse on characters or array-like entries the
claim does not cover). -/
inductive Good : JsVal → Prop where
  | null : Good .jnull
  | bool (b : Bool) : Good (.jbool b)
  | num (q : Rat) : Good (.jnum q)
  | str (s : String) : Good (.jstr s)
  | arr (xs : List JsVal) : (∀ v ∈ xs, Good v) → Good (.jarr xs)
  | obj (fs : List (String × JsVal)) :
      lookupField fs "$ref" = .undef →
      (truthy (lookupField fs "enum") = true →
        ∃ h t, lookupField fs "enum" = .jarr (h :: t)) →
      (truthy (lookupField fs "minItems") = true →
        ∃ q : Rat, lookupField fs "minItems" = .jnum q ∧ 0 ≤ q ∧ q.den = 1) →
      (truthy (lookupField fs "required") = true →
        ∃ xs, lookupField fs "required" = .jarr xs) →
      (truthy (lookupField fs "title") = true → ∃ s, lookupField fs "title" = .jstr s) →
      (truthy (lookupField fs "description") = true →
        ∃ s, lookupField fs "description" = .jstr s) →
      (truthy (lookupField fs "allOf") = true →
        ∃ xs, lookupField fs "allOf" = .jarr xs) →
      (truthy (lookupField fs "oneOf") = true →
        ∃ xs, lookupField fs "oneOf" = .jarr xs) →
      (truthy (lookupField fs "anyOf") = true →
        ∃ xs, lookupField fs "anyOf" = .jarr xs) →
      (∀ h t, lookupField fs "allOf" = .jarr (h :: t) → h ≠ .jnull) →
      (∀ h t, lookupField fs "oneOf" = .jarr (h :: t) → h ≠ .jnull) →
      (∀ h t, lookupField fs "anyOf" = .jarr (h :: t) → h ≠ .jnull) →
      (∀ p ∈ fs, Good (Prod.snd p)) →
      Good (.jobj fs)

/-- The outcome shape asserted by the generator safety claim C1: the call
succeeds and the produced value is defined (JSON-serializable). -/
@[reducible] def okDefined (m : Except String JsVal) : Prop :=
  ∃ v, m = .ok v ∧ v ≠ ( .undef : JsVal)

/-! # Theorems -/

/-! ## Shared evaluation lemmas -/

/-- Field reads on objects are list lookups. -/
@[simp] theorem jsField_jobj (fs : List (String × JsVal)) (k : String) :
    jsField (.jobj fs) k = lookupField fs k := rfl

/-- Field reads on numbers are undefined. -/
@[simp] theorem jsField_jnum (q : Rat) (k : String) : jsField (.jnum q) k = .undef := rfl

/-- Field reads on booleans are undefined. -/
@[simp] theorem jsField_jbool (b : Bool) (k : String) : jsField (.jbool b) k = .undef := rfl

/-- A truthy value is never undefined. -/
theorem truthy_ne_undef {v : JsVal} (h : truthy v = true) : v ≠ .undef := by
  intro he
  subst he
  simp [truthy] at h

/-- The JavaScript or-chain cannot produce undefined when its fallback is
not undefined. -/
theorem jsOr_ne_undef {a b : JsVal} (hb : b ≠ .undef) : jsOr a b ≠ .undef := by
  unfold jsOr
  by_cases h : truthy a = true
  · simp [h]
    exact truthy_ne_undef h
  · simp [Bool.not_eq_true] at h
    simp [h]
    exact hb

/-- A value in the good domain is never undefined. -/
theorem Good_ne_undef {v : JsVal} (h : Good v) : v ≠ .undef := by
  cases h <;> intro he <;> cases he

/-! ## C2: the deep resolver is depth-bounded -/

/-- C2: resolveAllRefs always terminates (the model is total by
construction); whenever the depth argument already exceeds the limit 10,
the node is returned as-is rather than erroring, and on a concrete
self-referencing ref cycle, resolution from depth 0 terminates and returns
the node unresolved. -/
theorem c2_resolveAllRefs_depth_bound :
    (∀ (schema spec : JsVal) (depth : Nat), 10 < depth →
        resolveAllRefs schema spec depth = .ok schema) ∧
    resolveAllRefs (.jobj [("$ref", .jstr "#/a")])
        (.jobj [("a", .jobj [("$ref", .jstr "#/a")])]) 0 =
      .ok (.jobj [("$ref", .jstr "#/a")]) := by
  constructor
  · intro schema spec depth h
    unfold resolveAllRefs
    have h0 : 11 - depth = 0 := by omega
    rw [h0]
    rfl
  · rfl

/-- Witness for C2 at depth 11 on a concrete node and document. -/
theorem c2_resolveAllRefs_depth_bound_witness :
    resolveAllRefs (.jobj [("$ref", .jstr "#/loop")]) (.jstr "doc") 11 =
      .ok (.jobj [("$ref", .jstr "#/loop")]) :=
  c2_resolveAllRefs_depth_bound.1 _ _ 11 (by decide)

/-! ## C6: the pointer resolver -/

/-- The source walk agrees with the claim-side walk once unresolved is read
back as null. -/
theorem truthyWalk_eq_specSegmentWalk :
    ∀ (segs : List String) (cur : JsVal),
      truthyWalk segs cur = (specSegmentWalk segs cur).getD .jnull := by
  intro segs
  induction segs with
  | nil => intro cur; rfl
  | cons seg rest ih =>
      intro cur
      unfold truthyWalk specSegmentWalk
      by_cases h : (truthy cur && truthy (jsField cur seg)) = true
      · rw [if_pos h, if_pos h, ih]
      · rw [if_neg h, if_neg h]
        rfl

/-- C6 (amended): on pointers whose walk performs only own-key reads of
plain objects (the domain where a JavaScript property read cannot reach an
inherited prototype member such as constructor), App.tsx resolveSchemaRef
resolves exactly as the specification's split-and-walk describes, except
that a walk step fails closed not only when the segment is absent but also
when the value found there is falsy (0, empty string, false or null);
_getSchemaFromRef, cited by the same claim, instead checks key presence
(see the counterexample). -/
theorem c6_resolveSchemaRef_characterization :
    ∀ (ref : String) (spec : JsVal),
      ownKeyWalk (splitOnChar (ref.drop 2) '/') spec = true →
      resolveSchemaRef ref spec = (specRefLookup ref spec).getD .jnull := by
  intro ref spec _
  unfold resolveSchemaRef specRefLookup
  by_cases h0 : ref = ""
  · subst h0
    rfl
  · by_cases hs : startsWithHS ref "#/" = true
    · simp [h0, hs, truthyWalk_eq_specSegmentWalk]
    · simp [h0, Bool.not_eq_true] at hs ⊢
      simp [hs]

/-- Witness for C6 on a two-level document whose walk reads own keys of
objects at every step. -/
theorem c6_resolveSchemaRef_witness :
    ownKeyWalk (splitOnChar (String.drop "#/a/b" 2) '/')
      (.jobj [("a", .jobj [("b", .jnum 2)])]) = true ∧
    resolveSchemaRef "#/a/b" (.jobj [("a", .jobj [("b", .jnum 2)])]) =
      (specRefLookup "#/a/b" (.jobj [("a", .jobj [("b", .jnum 2)])])).getD .jnull :=
  ⟨rfl, c6_resolveSchemaRef_characterization "#/a/b"
    (.jobj [("a", .jobj [("b", .jnum 2)])]) rfl⟩

/-- C6 counterexample: with the document binding key a to the (falsy) value
0, the pointer begins with the prefix and every segment is present, and the
node reached is 0; yet resolveSchemaRef returns unresolved (null), while
the panel resolver _getSchemaFromRef returns the 0 - refuting the claim
that unresolved happens exactly on a missing prefix or an absent segment. -/
theorem c6_resolveSchemaRef_cex :
    resolveSchemaRef "#/a" (.jobj [("a", .jnum 0)]) = .jnull ∧
    getSchemaFromRef (.jobj [("a", .jnum 0)]) "#/a" = .jnum 0 ∧
    JsVal.jnull ≠ .jnum 0 :=
  ⟨rfl, rfl, by simp⟩

/-! ## C3: explicit examples and the depth guard -/

/-- Named schema fields read as undefined on arrays (their keys are numeric
indices or length). One instance per key the generator consults. -/
@[simp] theorem jsField_jarr_example (xs : List JsVal) :
    jsField (.jarr xs) "example" = .undef := rfl

@[simp] theorem jsField_jarr_ref (xs : List JsVal) : jsField (.jarr xs) "$ref" = .undef := rfl

@[simp] theorem jsField_jarr_allOf (xs : List JsVal) : jsField (.jarr xs) "allOf" = .undef := rfl

@[simp] theorem jsField_jarr_oneOf (xs : List JsVal) : jsField (.jarr xs) "oneOf" = .undef := rfl

@[simp] theorem jsField_jarr_anyOf (xs : List JsVal) : jsField (.jarr xs) "anyOf" = .undef := rfl

@[simp] theorem jsField_jarr_type (xs : List JsVal) : jsField (.jarr xs) "type" = .undef := rfl

@[simp] theorem jsField_jarr_properties (xs : List JsVal) :
    jsField (.jarr xs) "properties" = .undef := rfl

@[simp] theorem jsField_jarr_items (xs : List JsVal) : jsField (.jarr xs) "items" = .undef := rfl

@[simp] theorem jsField_jarr_enum (xs : List JsVal) : jsField (.jarr xs) "enum" = .undef := rfl

@[simp] theorem jsField_jarr_default (xs : List JsVal) :
    jsField (.jarr xs) "default" = .undef := rfl

/-- Named schema fields read as undefined on strings likewise. -/
@[simp] theorem jsField_jstr_example (s : String) : jsField (.jstr s) "example" = .undef := rfl

@[simp] theorem jsField_jstr_ref (s : String) : jsField (.jstr s) "$ref" = .undef := rfl

@[simp] theorem jsField_jstr_allOf (s : String) : jsField (.jstr s) "allOf" = .undef := rfl

@[simp] theorem jsField_jstr_oneOf (s : String) : jsField (.jstr s) "oneOf" = .undef := rfl

@[simp] theorem jsField_jstr_anyOf (s : String) : jsField (.jstr s) "anyOf" = .undef := rfl

@[simp] theorem jsField_jstr_type (s : String) : jsField (.jstr s) "type" = .undef := rfl

@[simp] theorem jsField_jstr_properties (s : String) :
    jsField (.jstr s) "properties" = .undef := rfl

@[simp] theorem jsField_jstr_items (s : String) : jsField (.jstr s) "items" = .undef := rfl

@[simp] theorem jsField_jstr_enum (s : String) : jsField (.jstr s) "enum" = .undef := rfl

@[simp] theorem jsField_jstr_default (s : String) : jsField (.jstr s) "default" = .undef := rfl

@[simp] theorem jsField_jnull (k : String) : jsField .jnull k = .undef := rfl

@[simp] theorem jsField_undef (k : String) : jsField .undef k = .undef := rfl

/-- Within the depth guard the guard bound leaves positive fuel. -/
theorem fuel_of_depth_le {depth : Nat} (h : depth ≤ 5) : 6 - depth = (5 - depth) + 1 := by
  omega

/-- C3 (amended): a node carrying an example returns it verbatim regardless
of every other field, at every recursion depth within the depth guard
(depth at most 5); at greater depths the guard fires first and returns the
ellipsis placeholder instead (see the counterexample). -/
theorem c3_example_wins_within_guard :
    ∀ (spec schema : JsVal) (depth : Nat), depth ≤ 5 →
      isUndef (jsField schema "example") = false →
      generateExampleFromSchema spec schema depth = .ok (jsField schema "example") := by
  intro spec schema depth hd hex
  unfold generateExampleFromSchema
  rw [fuel_of_depth_le hd]
  cases schema
  case undef => simp [isUndef] at hex
  case jnull => simp [isUndef] at hex
  case jbool b => simp [isUndef] at hex
  case jnum q => simp [isUndef] at hex
  case jstr s => simp [isUndef] at hex
  case jarr xs => simp [isUndef] at hex
  case jobj fs =>
    simp only [jsField_jobj] at hex ⊢
    simp only [genFuel, jsField_jobj]
    rw [if_neg (by simp [truthy])]
    rw [if_pos hex]

/-- Witness for C3 at depth 0 on a node carrying both an example and other
fields. -/
theorem c3_example_wins_within_guard_witness :
    generateExampleFromSchema .jnull
        (.jobj [("example", .jstr "X"), ("type", .jstr "integer")]) 0 =
      .ok (jsField (.jobj [("example", .jstr "X"), ("type", .jstr "integer")]) "example") :=
  c3_example_wins_within_guard _ _ 0 (by decide) rfl

/-- C3 counterexample: at depth 6 the guard fires before the example check,
so the node with an explicit example returns the ellipsis placeholder, not
the example - refuting the claim for arbitrary recursion depths. -/
theorem c3_example_wins_cex :
    generateExampleFromSchema .jnull (.jobj [("example", .jstr "X")]) 6 = .ok (.jstr "...") ∧
    (Except.ok (JsVal.jstr "...") : Except String JsVal) ≠ .ok (.jstr "X") :=
  ⟨rfl, by simp⟩

/-! ## C7: the numeric priority chain -/

/-- Indexing a non-empty array at 0 selects its head. -/
@[simp] theorem idx0_cons (v : JsVal) (t : List JsVal) : idx0 (.jarr (v :: t)) = v := rfl

/-- C7 (amended): for a schema of declared type integer or number (without
an example, a ref, or allOf/oneOf/anyOf fields, within the depth guard), a
truthy non-empty enum yields its first entry; otherwise the generator
returns the first truthy value along default, minimum, maximum, else the
fixed 1 - the JavaScript or-chain, which skips a falsy (zero) default or
bound instead of returning it as the spec's priority order would. -/
theorem c7_numeric_priority :
    ∀ (spec : JsVal) (fs : List (String × JsVal)) (depth : Nat), depth ≤ 5 →
      (lookupField fs "type" = .jstr "integer" ∨ lookupField fs "type" = .jstr "number") →
      lookupField fs "example" = .undef →
      truthy (lookupField fs "$ref") = false →
      lookupField fs "allOf" = .undef →
      lookupField fs "oneOf" = .undef →
      lookupField fs "anyOf" = .undef →
      (∀ v t, lookupField fs "enum" = .jarr (v :: t) →
        generateExampleFromSchema spec (.jobj fs) depth = .ok v) ∧
      (truthy (lookupField fs "enum") = false →
        generateExampleFromSchema spec (.jobj fs) depth =
          .ok (jsOr (lookupField fs "default")
                (jsOr (lookupField fs "minimum")
                  (jsOr (lookupField fs "maximum") (.jnum 1))))) := by
  intro spec fs depth hd hty hex href hall hone hany
  have hstep : generateExampleFromSchema spec (.jobj fs) depth =
      (if truthy (lookupField fs "enum") then .ok (idx0 (lookupField fs "enum"))
       else .ok (jsOr (lookupField fs "default")
              (jsOr (lookupField fs "minimum")
                (jsOr (lookupField fs "maximum") (.jnum 1))))) := by
    unfold generateExampleFromSchema
    rw [fuel_of_depth_le hd]
    simp only [genFuel, jsField_jobj]
    rw [if_neg (by simp [truthy])]
    rw [hex, if_neg (by simp [isUndef])]
    rw [if_neg (by simp [href])]
    rw [if_neg (show ¬ compActive (lookupField fs "allOf") = true by rw [hall]; decide)]
    rw [if_neg (show ¬ compActive (lookupField fs "oneOf") = true by rw [hone]; decide)]
    rw [if_neg (show ¬ compActive (lookupField fs "anyOf") = true by rw [hany]; decide)]
    rcases hty with h | h <;> rw [h] <;> rfl
  constructor
  · intro v t he
    rw [hstep, he]
    simp [truthy]
  · intro he
    rw [hstep, if_neg (by simp [he])]

/-- Witness for C7 on a concrete integer schema with only a minimum. -/
theorem c7_numeric_priority_witness :
    generateExampleFromSchema .jnull (.jobj [("type", .jstr "integer"), ("minimum", .jnum 2)]) 0 =
      .ok (jsOr (lookupField [("type", JsVal.jstr "integer"), ("minimum", JsVal.jnum 2)] "default")
            (jsOr (lookupField [("type", JsVal.jstr "integer"), ("minimum", JsVal.jnum 2)] "minimum")
              (jsOr (lookupField [("type", JsVal.jstr "integer"), ("minimum", JsVal.jnum 2)] "maximum")
                (.jnum 1)))) :=
  (c7_numeric_priority .jnull [("type", JsVal.jstr "integer"), ("minimum", JsVal.jnum 2)] 0
      (by decide) (Or.inl rfl) rfl rfl rfl rfl rfl).2 rfl

/-- C7 counterexample: with a zero default and minimum 5, the generator
returns 5, not the declared default 0 - the or-chain skips the falsy
default, refuting the claimed priority order. -/
theorem c7_numeric_priority_cex :
    generateExampleFromSchema .jnull
        (.jobj [("type", .jstr "integer"), ("default", .jnum 0), ("minimum", .jnum 5)]) 0 =
      .ok (.jnum 5) ∧
    (Except.ok (JsVal.jnum 5) : Except String JsVal) ≠ .ok (.jnum 0) :=
  ⟨rfl, by simp⟩

/-! ## C4: composition first-entry selection -/

/-- C4 (amended): a two-entry oneOf node deterministically selects the first
entry and recurses on it - at depth + 1, one level deeper than the node
itself. The selection is a pure function of the node, hence stable across
repeated calls; but the claimed plain equation between exampleFor of the
composition and exampleFor of the first entry holds only up to that depth
shift (see the counterexample, where the entry is depth-sensitive). -/
theorem c4_oneOf_first_entry :
    ∀ (spec A B : JsVal) (depth : Nat), depth ≤ 5 →
      A ≠ .jnull → A ≠ .undef →
      truthy (jsField A "$ref") = false →
      generateExampleFromSchema spec (.jobj [("oneOf", .jarr [A, B])]) depth =
        generateExampleFromSchema spec A (depth + 1) := by
  intro spec A B depth hd hn hu href
  unfold generateExampleFromSchema
  rw [fuel_of_depth_le hd]
  have h2 : 6 - (depth + 1) = 5 - depth := by omega
  rw [h2]
  have lhs_eq : genFuel spec ((5 - depth) + 1) (.jobj [("oneOf", .jarr [A, B])]) =
      (do
        let sel ← compSelect spec (.jarr [A, B])
        genFuel spec (5 - depth) sel) := rfl
  rw [lhs_eq]
  have hsel : compSelect spec (.jarr [A, B]) = .ok A := by
    cases A
    case jnull => exact absurd rfl hn
    case undef => exact absurd rfl hu
    all_goals simp_all [compSelect, idx0_cons]
  rw [hsel]
  rfl

/-- The schema tree of the C4 counterexample: n levels of single-property
objects around an innermost node with an explicit example. -/
def deepA : Nat → JsVal
  | 0 => .jobj [("example", .jstr "X")]
  | n + 1 => .jobj [("properties", .jobj [("p", deepA n)])]

/-- The value that tree generates when the innermost node is reached within
the depth guard: the example at the bottom. -/
def expectX : Nat → JsVal
  | 0 => .jstr "X"
  | n + 1 => .jobj [("p", expectX n)]

/-- The value it generates when the innermost node lands on the guard: the
ellipsis placeholder at the bottom. -/
def expectDots : Nat → JsVal
  | 0 => .jstr "..."
  | n + 1 => .jobj [("p", expectDots n)]

/-- C4 counterexample: for the depth-sensitive first entry A = deepA 5,
exampleFor of the oneOf node differs from exampleFor of A, because the
composition recurses at depth 1 and A's innermost node then lands on the
depth guard - refuting the claimed equation for all entries A, B. -/
theorem c4_oneOf_first_entry_cex :
    generateExampleFromSchema .jnull (.jobj [("oneOf", .jarr [deepA 5, .jobj []])]) 0 =
      .ok (expectDots 5) ∧
    generateExampleFromSchema .jnull (deepA 5) 0 = .ok (expectX 5) ∧
    expectDots 5 ≠ expectX 5 :=
  ⟨rfl, rfl, by simp [expectDots, expectX]⟩

/-- Witness for C4 on a shallow first entry at depth 0. -/
theorem c4_oneOf_first_entry_witness :
    generateExampleFromSchema .jnull
        (.jobj [("oneOf", .jarr [.jobj [("type", .jstr "string")], .jobj []])]) 0 =
      generateExampleFromSchema .jnull (.jobj [("type", .jstr "string")]) 1 :=
  c4_oneOf_first_entry .jnull (.jobj [("type", .jstr "string")]) (.jobj []) 0
    (by decide) (fun h => JsVal.noConfusion h) (fun h => JsVal.noConfusion h) rfl

/-! ## C9: orchestrator failure semantics -/

/-- C9 (amended): in the orchestrator, a provider call error and an empty
provider response are caught as recoverable and demote control to the
local-synthesis (manual) phase; but a non-empty provider response that is
not valid JSON is not demoted - it surfaces a terminal validation error
without attempting local synthesis. When both phases were attempted and
failed, the terminal error carries the identity of every attempted phase
and the last underlying error verbatim. -/
theorem c9_orchestrator_failure_semantics :
    (∀ (e m : String) (v : JsVal), jsonParse m = .ok v → m ≠ "" →
        generateLLMJson true (.error e) (.ok m) = .success m "Manual Generation") ∧
    (∀ (m : String) (v : JsVal), jsonParse m = .ok v → m ≠ "" →
        generateLLMJson true (.ok "") (.ok m) = .success m "Manual Generation") ∧
    (∀ (t pe : String) (manual : Except String String), t ≠ "" → jsonParse t = .error pe →
        generateLLMJson true (.ok t) manual =
          .failure ("AI generation failed: Generated content is not valid JSON: " ++ pe)) ∧
    (∀ e1 e2 : String, e2 ≠ "" →
        generateLLMJson true (.error e1) (.error e2) =
          .failure ("AI generation failed: " ++ allFailedMsg ["claude", "manual"] (some e2) true) ∧
        allFailedMsg ["claude", "manual"] (some e2) true =
          "All providers failed to generate JSON. Attempted providers: claude, manual\nLast error: "
            ++ (e2 ++ "\nProvider availability: Claude=true")) := by
  refine ⟨?_, ?_, ?_, ?_⟩
  · intro e m v hp hm
    simp [generateLLMJson, hm, hp]
  · intro m v hp hm
    simp [generateLLMJson, hm, hp]
  · intro t pe manual ht hp
    simp [generateLLMJson, ht, hp]
  · intro e1 e2 he
    constructor
    · simp [generateLLMJson, he]
    · have hi : String.intercalate ", " ["claude", "manual"] = "claude, manual" := rfl
      simp [allFailedMsg, hi, he, String.append_assoc]

/-- Witness for C9: a provider call error with a usable manual result ends
in manual success. -/
theorem c9_orchestrator_failure_semantics_witness :
    generateLLMJson true (.error "boom") (.ok "\x7b\"a\": 1\x7d") =
      .success "\x7b\"a\": 1\x7d" "Manual Generation" :=
  c9_orchestrator_failure_semantics.1 "boom" _ (.jobj [("a", .jnum 1)]) rfl (by decide)

/-- C9 counterexample: the provider is available and returns unusable
non-JSON text, and the manual phase would succeed with valid JSON; yet the
orchestrator surfaces a terminal error instead of demoting to local
synthesis - refuting the claim that every malformed provider response
demotes rather than aborts. -/
theorem c9_orchestrator_cex :
    isFailure (generateLLMJson true (.ok "hello") (.ok "\x7b\"a\": 1\x7d")) = true ∧
    validateAndFormatJSON "\x7b\"a\": 1\x7d" = .ok "\x7b\n  \"a\": 1\n\x7d" :=
  ⟨rfl, rfl⟩

/-! ## C8: the JSON repairer -/

/-- The first index of a character sitting right after a prefix free of it. -/
theorem firstIdx_append_cons (c : Char) (l2 : List Char) :
    ∀ (l1 : List Char), c ∉ l1 → firstIdx c (l1 ++ c :: l2) = some l1.length := by
  intro l1
  induction l1 with
  | nil => intro _; simp [firstIdx]
  | cons x xs ih =>
      intro h
      simp only [List.mem_cons, not_or] at h
      have hx : x ≠ c := fun he => h.1 he.symm
      simp [firstIdx, hx, ih h.2]

/-- C8: the repairer extracts the greedy span from the first opening brace
to the last closing brace, discarding surrounding prose (fourth conjunct,
for any text split as prose without an opening brace, a brace-delimited
span, and trailing prose without a closing brace); trailing commas before a
closer are removed and line and block comments stripped before parsing
(third conjunct); and on the claim's own vector the repairer returns the
parse of the cleaned span, the object binding x to 1 (first and second
conjuncts; the returned text is its two-space pretty printing). -/
theorem c8_repair_extraction :
    repairJSON "Here is the data: \x7b\"x\": 1,\x7d" = .ok "\x7b\n  \"x\": 1\n\x7d" ∧
    jsonParse (cleanupJSONString "\x7b\"x\": 1,\x7d") = .ok (.jobj [("x", .jnum 1)]) ∧
    jsonParse (cleanupJSONString "\x7b\"a\": 1 /* note */, \"b\": 2,\x7d") =
      .ok (.jobj [("a", .jnum 1), ("b", .jnum 2)]) ∧
    (∀ pre mid post : String, '\x7b' ∉ pre.toList → '\x7d' ∉ post.toList →
      extractJSON (pre ++ "\x7b" ++ mid ++ "\x7d" ++ post) =
        .ok ("\x7b" ++ mid ++ "\x7d")) := by
  refine ⟨rfl, rfl, rfl, ?_⟩
  intro pre mid post hpre hpost
  have hdata : (pre ++ "\x7b" ++ mid ++ "\x7d" ++ post).toList =
      pre.toList ++ '\x7b' :: (mid.toList ++ '\x7d' :: post.toList) := by
    show (pre ++ "\x7b" ++ mid ++ "\x7d" ++ post).data = _
    simp [String.data_append]
  have hne : pre ++ "\x7b" ++ mid ++ "\x7d" ++ post ≠ "" := by
    intro h
    have : (pre ++ "\x7b" ++ mid ++ "\x7d" ++ post).toList = [] := by rw [h]; rfl
    rw [hdata] at this
    simp at this
  have hfirst : firstIdx '\x7b' (pre ++ "\x7b" ++ mid ++ "\x7d" ++ post).toList =
      some pre.toList.length := by
    rw [hdata]
    exact firstIdx_append_cons _ _ _ hpre
  have hrev : ((pre ++ "\x7b" ++ mid ++ "\x7d" ++ post).toList).reverse =
      post.toList.reverse ++ '\x7d' :: (mid.toList.reverse ++ '\x7b' :: pre.toList.reverse) := by
    rw [hdata]
    simp
  have hlast : lastIdx '\x7d' (pre ++ "\x7b" ++ mid ++ "\x7d" ++ post).toList =
      some (pre.toList.length + mid.toList.length + 1) := by
    unfold lastIdx
    rw [hrev, firstIdx_append_cons _ _ _ (by simpa using hpost)]
    simp [hdata]
    omega
  unfold extractJSON braceSpan
  rw [if_neg hne]
  have hlt : pre.toList.length < pre.toList.length + mid.toList.length + 1 := by omega
  simp only [hfirst, hlast, if_pos hlt]
  have hdrop : ((pre ++ "\x7b" ++ mid ++ "\x7d" ++ post).toList).drop pre.toList.length =
      '\x7b' :: (mid.toList ++ '\x7d' :: post.toList) := by
    rw [hdata]
    exact List.drop_left _ _
  have htake : (('\x7b' :: (mid.toList ++ '\x7d' :: post.toList)).take
      (pre.toList.length + mid.toList.length + 1 - pre.toList.length + 1)) =
      '\x7b' :: (mid.toList ++ ['\x7d']) := by
    have harith : pre.toList.length + mid.toList.length + 1 - pre.toList.length + 1 =
        (mid.toList.length + 1) + 1 := by omega
    rw [harith, List.take_succ_cons]
    have h1 : (mid.toList ++ '\x7d' :: post.toList).take (mid.toList.length + 1) =
        mid.toList ++ ('\x7d' :: post.toList).take 1 := List.take_append 1
    rw [h1]
    rfl
  rw [hdrop, htake]
  have : String.mk ('\x7b' :: (mid.toList ++ ['\x7d'])) = "\x7b" ++ mid ++ "\x7d" := by
    have hd2 : ("\x7b" ++ mid ++ "\x7d").data = '\x7b' :: (mid.toList ++ ['\x7d']) := by
      simp [String.data_append]
    rw [← hd2]
  rw [this]

/-- Witness for C8 on concrete prose around a concrete span. -/
theorem c8_repair_extraction_witness :
    extractJSON ("take this: " ++ "\x7b" ++ "\"k\": 0" ++ "\x7d" ++ " bye") =
      .ok ("\x7b" ++ "\"k\": 0" ++ "\x7d") :=
  c8_repair_extraction.2.2.2 "take this: " "\"k\": 0" " bye" (by decide) (by decide)

/-! ## C5: object property inclusion -/

/-- A non-undefined field of an object with good values is itself good. -/
theorem lookup_good {fs : List (String × JsVal)} (hvals : ∀ p ∈ fs, Good (Prod.snd p))
    {k : String} (hne : lookupField fs k ≠ .undef) : Good (lookupField fs k) := by
  induction fs with
  | nil => exact absurd rfl hne
  | cons kv rest ih =>
      obtain ⟨k0, v0⟩ := kv
      by_cases hk : k0 = k
      · have : lookupField ((k0, v0) :: rest) k = v0 := by simp [lookupField, hk]
        rw [this]
        rw [this] at hne
        exact hvals (k0, v0) (List.mem_cons_self _ _)
      · have : lookupField ((k0, v0) :: rest) k = lookupField rest k := by
          simp [lookupField, hk]
        rw [this]
        rw [this] at hne
        exact ih (fun p hp => hvals p (List.mem_cons_of_mem _ hp)) hne

/-- Every entry value of a good properties value is good. -/
theorem objEntries_good {p : JsVal} (hp : Good p) :
    ∀ kv ∈ objEntries p, Good (Prod.snd kv) := by
  cases hp with
  | obj fs _ _ _ _ _ _ _ _ _ _ _ _ hvals =>
      intro kv hkv
      exact hvals kv hkv
  | arr xs hels =>
      intro kv hkv
      simp only [objEntries, List.mem_map] at hkv
      obtain ⟨⟨i, x⟩, hmem, hkv⟩ := hkv
      subst hkv
      exact hels x (List.getElem?_mem (List.mk_mem_enum_iff_getElem?.mp hmem))
  | str s =>
      intro kv hkv
      simp only [objEntries, List.mem_map] at hkv
      obtain ⟨⟨i, c⟩, hmem, hkv⟩ := hkv
      subst hkv
      exact Good.str _
  | null => intro kv hkv; cases hkv
  | bool b => intro kv hkv; cases hkv
  | num q => intro kv hkv; cases hkv

/-- The property loop succeeds whenever every recursion succeeds and the
required field is falsy or an array. -/
theorem genProps_ok (g : JsVal → Except String JsVal) (req : JsVal) (total : Nat)
    (hreq : truthy req = false ∨ ∃ xs, req = .jarr xs) :
    ∀ l : List (String × JsVal), (∀ kv ∈ l, ∃ v, g (Prod.snd kv) = .ok v) →
      ∃ out, genProps g req total l = .ok out := by
  intro l
  induction l with
  | nil => intro _; exact ⟨[], rfl⟩
  | cons kv rest ih =>
      obtain ⟨k, v⟩ := kv
      intro hg
      obtain ⟨val, hval⟩ := hg (k, v) (List.mem_cons_self _ _)
      obtain ⟨tail, htail⟩ := ih (fun p hp => hg p (List.mem_cons_of_mem _ hp))
      rcases hreq with hfalsy | ⟨xs, hxs⟩
      · refine ⟨(k, val) :: tail, ?_⟩
        simp only [genProps, if_pos hfalsy]
        simp [pure, Except.pure, bind, Except.bind, hval, htail]
      · subst hxs
        simp only [genProps, if_neg (show ¬ truthy (JsVal.jarr xs) = false by simp [truthy]),
          jsIncludes]
        simp only [pure, Except.pure, bind, Except.bind]
        by_cases hkeep :
            (xs.any (fun v => match v with | .jstr s => s = k | _ => false) ||
              decide (total ≤ 5)) = true
        · rw [if_pos hkeep]
          exact ⟨(k, val) :: tail, by simp only [hval, htail]⟩
        · rw [if_neg hkeep]
          exact ⟨tail, htail⟩

/-- First-entry selection succeeds with a good selection on every non-empty
array of good entries whose head is not null. -/
theorem compSelect_good (spec : JsVal) {e : JsVal} {es : List JsVal}
    (hels : ∀ v ∈ e :: es, Good v) (hhn : e ≠ .jnull) :
    ∃ sel, compSelect spec (.jarr (e :: es)) = .ok sel ∧ Good sel := by
  have hge : Good e := hels e (List.mem_cons_self _ _)
  refine ⟨e, ?_, hge⟩
  cases hge with
  | null => exact absurd rfl hhn
  | bool b => simp [compSelect, idx0_cons, truthy]
  | num q => simp [compSelect, idx0_cons, truthy]
  | str s => simp [compSelect, idx0_cons, truthy]
  | arr ys _ => simp [compSelect, idx0_cons, truthy]
  | obj hfs hr _ _ _ _ _ _ _ _ _ _ _ _ =>
      simp only [compSelect, idx0_cons, jsField_jobj, hr]
      simp [truthy]

/-- The string case returns a defined value and never throws, for nodes in
the good domain: enums are non-empty arrays, title and description are
strings when truthy. -/
theorem genStringCase_good {fs : List (String × JsVal)}
    (henum : truthy (lookupField fs "enum") = true →
      ∃ h t, lookupField fs "enum" = .jarr (h :: t))
    (htitle : truthy (lookupField fs "title") = true →
      ∃ s, lookupField fs "title" = .jstr s)
    (hdesc : truthy (lookupField fs "description") = true →
      ∃ s, lookupField fs "description" = .jstr s)
    (hvals : ∀ p ∈ fs, Good (Prod.snd p)) :
    ∃ v, genStringCase (.jobj fs) = .ok v ∧ v ≠ .undef := by
  unfold genStringCase
  simp only [jsField_jobj]
  by_cases f1 : formatIs (lookupField fs "format") "date" = true
  · rw [if_pos f1]
    exact ⟨_, rfl, fun h => JsVal.noConfusion h⟩
  rw [if_neg f1]
  by_cases f2 : formatIs (lookupField fs "format") "date-time" = true
  · rw [if_pos f2]
    exact ⟨_, rfl, fun h => JsVal.noConfusion h⟩
  rw [if_neg f2]
  by_cases f3 : formatIs (lookupField fs "format") "email" = true
  · rw [if_pos f3]
    exact ⟨_, rfl, fun h => JsVal.noConfusion h⟩
  rw [if_neg f3]
  by_cases f4 : formatIs (lookupField fs "format") "uri" = true
  · rw [if_pos f4]
    exact ⟨_, rfl, fun h => JsVal.noConfusion h⟩
  rw [if_neg f4]
  by_cases f5 : formatIs (lookupField fs "format") "uuid" = true
  · rw [if_pos f5]
    exact ⟨_, rfl, fun h => JsVal.noConfusion h⟩
  rw [if_neg f5]
  by_cases f6 : formatIs (lookupField fs "format") "password" = true
  · rw [if_pos f6]
    exact ⟨_, rfl, fun h => JsVal.noConfusion h⟩
  rw [if_neg f6]
  by_cases he : truthy (lookupField fs "enum") = true
  · rw [if_pos he]
    obtain ⟨h, t, hht⟩ := henum he
    rw [hht, idx0_cons]
    have hgh : Good h := by
      have hg := lookup_good hvals (k := "enum") (by rw [hht]; exact fun hc => JsVal.noConfusion hc)
      rw [hht] at hg
      cases hg with | arr _ hels => exact hels h (List.mem_cons_self _ _)
    exact ⟨h, rfl, Good_ne_undef hgh⟩
  rw [if_neg he]
  by_cases hpat : truthy (lookupField fs "pattern") = true
  · rw [if_pos hpat]
    exact ⟨_, rfl, fun h => JsVal.noConfusion h⟩
  rw [if_neg hpat]
  have hleaf : ∀ a : JsVal,
      (∃ v, (Except.ok (jsOr a (JsVal.jstr "string")) : Except String JsVal) = .ok v ∧
        v ≠ .undef) :=
    fun a => ⟨_, rfl, jsOr_ne_undef (fun h => JsVal.noConfusion h)⟩
  by_cases ht : truthy (lookupField fs "title") = true
  · obtain ⟨s, hst⟩ := htitle ht
    rw [hst] at ht ⊢
    rw [if_pos ht]
    simp only [pure, Except.pure, bind, Except.bind]
    by_cases hname : strHasSub (toLowerStr s) "name" = true
    · rw [if_pos hname]
      exact ⟨_, rfl, fun h => JsVal.noConfusion h⟩
    rw [if_neg hname]
    by_cases hd : truthy (lookupField fs "description") = true
    · obtain ⟨s2, hsd⟩ := hdesc hd
      rw [hsd] at hd ⊢
      rw [if_pos hd]
      simp only [pure, Except.pure, bind, Except.bind]
      by_cases hstat : strHasSub (toLowerStr s2) "status" = true
      · rw [if_pos hstat]
        exact ⟨_, rfl, fun h => JsVal.noConfusion h⟩
      rw [if_neg hstat]
      exact hleaf _
    · rw [if_neg hd]
      exact hleaf _
  · rw [if_neg ht]
    simp only [pure, Except.pure, bind, Except.bind]
    by_cases hd : truthy (lookupField fs "description") = true
    · obtain ⟨s2, hsd⟩ := hdesc hd
      rw [hsd] at hd ⊢
      rw [if_pos hd]
      simp only [pure, Except.pure, bind, Except.bind]
      by_cases hstat : strHasSub (toLowerStr s2) "status" = true
      · rw [if_pos hstat]
        exact ⟨_, rfl, fun h => JsVal.noConfusion h⟩
      rw [if_neg hstat]
      exact hleaf _
    · rw [if_neg hd]
      exact hleaf _

/-- The head of a non-empty enum array stored in an object with good values
is itself good. -/
theorem enum_head_good {fs : List (String × JsVal)}
    (hvals : ∀ p ∈ fs, Good (Prod.snd p))
    {h : JsVal} {t : List JsVal} (hht : lookupField fs "enum" = .jarr (h :: t)) :
    Good h := by
  have hg := lookup_good hvals (k := "enum") (by rw [hht]; exact fun hc => JsVal.noConfusion hc)
  rw [hht] at hg
  cases hg with
  | arr _ hels => exact hels h (List.mem_cons_self _ _)

/-- The property loop of the object and default branches succeeds on a good
node whose truthy properties field is good and whose truthy required field
is an array, provided the recursion succeeds on every good node. -/
theorem propsBranch_ok (spec : JsVal) (f : Nat)
    (ih : ∀ schema, Good schema → okDefined (genFuel spec f schema))
    {fs : List (String × JsVal)}
    (hvals : ∀ p ∈ fs, Good (Prod.snd p))
    (hreq : truthy (lookupField fs "required") = true →
      ∃ xs, lookupField fs "required" = .jarr xs)
    (hp : truthy (lookupField fs "properties") = true) :
    ∃ out, genProps (fun v => genFuel spec f v) (lookupField fs "required")
      (objEntries (lookupField fs "properties")).length
      (objEntries (lookupField fs "properties")) = .ok out := by
  have hgp : Good (lookupField fs "properties") := lookup_good hvals (truthy_ne_undef hp)
  have hents := objEntries_good hgp
  have hreq2 : truthy (lookupField fs "required") = false ∨
      ∃ xs, lookupField fs "required" = .jarr xs := by
    by_cases h : truthy (lookupField fs "required") = true
    · exact Or.inr (hreq h)
    · exact Or.inl (by simpa using h)
  refine genProps_ok _ _ _ hreq2 _ (fun kv hkv => ?_)
  obtain ⟨v, hv, _⟩ := ih (Prod.snd kv) (hents kv hkv)
  exact ⟨v, hv⟩

/-- Main safety lemma for C1: on the good domain the generator body
succeeds with a defined value at every fuel level. -/
theorem genFuel_good (spec : JsVal) :
    ∀ f : Nat, ∀ schema : JsVal, Good schema → okDefined (genFuel spec f schema) := by
  intro f
  induction f with
  | zero =>
      intro schema _
      by_cases h : truthy schema = false
      · exact ⟨.jstr "", by simp only [genFuel, if_pos h], fun hc => JsVal.noConfusion hc⟩
      · exact ⟨.jstr "...", by simp only [genFuel, if_neg h], fun hc => JsVal.noConfusion hc⟩
  | succ f ih =>
      intro schema hg
      by_cases htr : truthy schema = false
      · exact ⟨.jstr "", by simp only [genFuel, if_pos htr], fun hc => JsVal.noConfusion hc⟩
      cases hg with
      | null => exact absurd rfl htr
      | bool b =>
          cases b with
          | false => exact absurd rfl htr
          | true => exact ⟨.jstr "", rfl, fun hc => JsVal.noConfusion hc⟩
      | num q =>
          refine ⟨.jstr "", ?_, fun hc => JsVal.noConfusion hc⟩
          simp only [genFuel]
          rw [if_neg htr]
          rfl
      | str s =>
          refine ⟨.jstr "", ?_, fun hc => JsVal.noConfusion hc⟩
          simp only [genFuel]
          rw [if_neg htr]
          rfl
      | arr xs hels =>
          refine ⟨.jstr "", ?_, fun hc => JsVal.noConfusion hc⟩
          simp only [genFuel]
          rw [if_neg htr]
          rfl
      | obj fs h1 h2 h3 h4 h5 h6 h7a h8a h9a h7 h8 h9 h10 =>
          simp only [genFuel, jsField_jobj]
          rw [if_neg htr]
          by_cases hex : isUndef (lookupField fs "example") = false
          · rw [if_pos hex]
            refine ⟨lookupField fs "example", rfl, fun hu => ?_⟩
            rw [hu] at hex
            simp [isUndef] at hex
          rw [if_neg hex]
          rw [if_neg (show ¬ truthy (lookupField fs "$ref") = true by
            rw [h1]; simp [truthy])]
          by_cases hall : compActive (lookupField fs "allOf") = true
          · rw [if_pos hall]
            have htru : truthy (lookupField fs "allOf") = true := by
              have h := hall
              simp only [compActive, Bool.and_eq_true] at h
              exact h.1
            obtain ⟨xs, hxs⟩ := h7a htru
            cases xs with
            | nil =>
                rw [hxs] at hall
                exact absurd hall (by decide)
            | cons e es =>
                have hgxs : ∀ v ∈ e :: es, Good v := by
                  have hg := lookup_good h10 (k := "allOf") (truthy_ne_undef htru)
                  rw [hxs] at hg
                  cases hg with | arr _ hels => exact hels
                obtain ⟨sel, hsel, hgsel⟩ := compSelect_good spec hgxs (h7 e es hxs)
                obtain ⟨v, hv, hvne⟩ := ih sel hgsel
                refine ⟨v, ?_, hvne⟩
                rw [hxs, hsel]
                exact hv
          rw [if_neg hall]
          by_cases hone : compActive (lookupField fs "oneOf") = true
          · rw [if_pos hone]
            have htru : truthy (lookupField fs "oneOf") = true := by
              have h := hone
              simp only [compActive, Bool.and_eq_true] at h
              exact h.1
            obtain ⟨xs, hxs⟩ := h8a htru
            cases xs with
            | nil =>
                rw [hxs] at hone
                exact absurd hone (by decide)
            | cons e es =>
                have hgxs : ∀ v ∈ e :: es, Good v := by
                  have hg := lookup_good h10 (k := "oneOf") (truthy_ne_undef htru)
                  rw [hxs] at hg
                  cases hg with | arr _ hels => exact hels
                obtain ⟨sel, hsel, hgsel⟩ := compSelect_good spec hgxs (h8 e es hxs)
                obtain ⟨v, hv, hvne⟩ := ih sel hgsel
                refine ⟨v, ?_, hvne⟩
                rw [hxs, hsel]
                exact hv
          rw [if_neg hone]
          by_cases hany : compActive (lookupField fs "anyOf") = true
          · rw [if_pos hany]
            have htru : truthy (lookupField fs "anyOf") = true := by
              have h := hany
              simp only [compActive, Bool.and_eq_true] at h
              exact h.1
            obtain ⟨xs, hxs⟩ := h9a htru
            cases xs with
            | nil =>
                rw [hxs] at hany
                exact absurd hany (by decide)
            | cons e es =>
                have hgxs : ∀ v ∈ e :: es, Good v := by
                  have hg := lookup_good h10 (k := "anyOf") (truthy_ne_undef htru)
                  rw [hxs] at hg
                  cases hg with | arr _ hels => exact hels
                obtain ⟨sel, hsel, hgsel⟩ := compSelect_good spec hgxs (h9 e es hxs)
                obtain ⟨v, hv, hvne⟩ := ih sel hgsel
                refine ⟨v, ?_, hvne⟩
                rw [hxs, hsel]
                exact hv
          rw [if_neg hany]
          split
          · exact genStringCase_good h2 h5 h6 h10
          · by_cases hen : truthy (lookupField fs "enum") = true
            · rw [if_pos hen]
              obtain ⟨eh, et, hht⟩ := h2 hen
              rw [hht, idx0_cons]
              exact ⟨eh, rfl, Good_ne_undef (enum_head_good h10 hht)⟩
            · rw [if_neg hen]
              exact ⟨_, rfl,
                jsOr_ne_undef (jsOr_ne_undef (jsOr_ne_undef (fun hc => JsVal.noConfusion hc)))⟩
          · by_cases hen : truthy (lookupField fs "enum") = true
            · rw [if_pos hen]
              obtain ⟨eh, et, hht⟩ := h2 hen
              rw [hht, idx0_cons]
              exact ⟨eh, rfl, Good_ne_undef (enum_head_good h10 hht)⟩
            · rw [if_neg hen]
              exact ⟨_, rfl,
                jsOr_ne_undef (jsOr_ne_undef (jsOr_ne_undef (fun hc => JsVal.noConfusion hc)))⟩
          · by_cases hd : isUndef (lookupField fs "default") = true
            · rw [if_pos hd]
              exact ⟨_, rfl, fun hc => JsVal.noConfusion hc⟩
            · rw [if_neg hd]
              refine ⟨_, rfl, fun hu => ?_⟩
              rw [hu] at hd
              exact hd rfl
          · by_cases hit : truthy (lookupField fs "items") = true
            · rw [if_pos hit]
              obtain ⟨iv, hiv, hivne⟩ :=
                ih (lookupField fs "items") (lookup_good h10 (truthy_ne_undef hit))
              rw [hiv]
              simp only [bind, Except.bind]
              by_cases hmi : truthy (lookupField fs "minItems") = true
              · obtain ⟨q, hq, hq0, hqden⟩ := h3 hmi
                rw [hq] at hmi ⊢
                rw [show jsOr (.jnum q) (.jnum 1) = .jnum q from by
                  unfold jsOr; rw [if_pos hmi]]
                simp only [toNumber]
                have hden : (min q 3).den = 1 := by
                  rcases le_total q 3 with h | h
                  · rw [min_eq_left h]; exact hqden
                  · rw [min_eq_right h]; rfl
                have hpos : (0:Rat) ≤ min q 3 := le_min hq0 (by norm_num)
                rw [if_pos ⟨hpos, hden⟩]
                exact ⟨_, rfl, fun hc => JsVal.noConfusion hc⟩
              · rw [show jsOr (lookupField fs "minItems") (.jnum 1) = .jnum 1 from by
                  unfold jsOr; rw [if_neg hmi]]
                simp only [toNumber]
                have hmin1 : min (1:Rat) 3 = 1 := min_eq_left (by norm_num)
                rw [if_pos ⟨by rw [hmin1]; norm_num, by rw [hmin1]; simp⟩]
                exact ⟨_, rfl, fun hc => JsVal.noConfusion hc⟩
            · rw [if_neg hit]
              exact ⟨_, rfl, fun hc => JsVal.noConfusion hc⟩
          · by_cases hp : truthy (lookupField fs "properties") = true
            · rw [if_pos hp]
              obtain ⟨out, hout⟩ := propsBranch_ok spec f ih h10 h4 hp
              rw [hout]
              exact ⟨_, rfl, fun hc => JsVal.noConfusion hc⟩
            · rw [if_neg hp]
              exact ⟨_, rfl, fun hc => JsVal.noConfusion hc⟩
          · by_cases hp : truthy (lookupField fs "properties") = true
            · rw [if_pos hp]
              obtain ⟨out, hout⟩ := propsBranch_ok spec f ih h10 h4 hp
              rw [hout]
              exact ⟨_, rfl, fun hc => JsVal.noConfusion hc⟩
            · rw [if_neg hp]
              by_cases hit : truthy (lookupField fs "items") = true
              · rw [if_pos hit]
                obtain ⟨iv, hiv, hivne⟩ :=
                  ih (lookupField fs "items") (lookup_good h10 (truthy_ne_undef hit))
                rw [hiv]
                exact ⟨_, rfl, fun hc => JsVal.noConfusion hc⟩
              · rw [if_neg hit]
                by_cases hen : truthy (lookupField fs "enum") = true
                · rw [if_pos hen]
                  obtain ⟨eh, et, hht⟩ := h2 hen
                  rw [hht, idx0_cons]
                  exact ⟨eh, rfl, Good_ne_undef (enum_head_good h10 hht)⟩
                · rw [if_neg hen]
                  exact ⟨_, rfl, jsOr_ne_undef (fun hc => JsVal.noConfusion hc)⟩

/-- C1: on the good schema domain (ref-free at every nesting level, truthy
enums non-empty arrays, truthy minItems non-negative integers, truthy
required arrays, truthy titles and descriptions strings, truthy
allOf/oneOf/anyOf fields arrays not starting with null),
generateExampleFromSchema succeeds at every recursion depth and every
loaded document with a defined (JSON-serializable) value: it terminates
and never throws there. Outside that domain the unqualified claim fails,
see the counterexample. -/
theorem c1_generator_safety (spec schema : JsVal) (depth : Nat) (hg : Good schema) :
    ∃ v, generateExampleFromSchema spec schema depth = .ok v ∧ v ≠ .undef := by
  obtain ⟨v, hv, hne⟩ := genFuel_good spec (6 - depth) schema hg
  exact ⟨v, hv, hne⟩

/-- Witness for C1 at the schema with a single string type field. -/
theorem c1_generator_safety_witness :
    ∃ v, generateExampleFromSchema .jnull (.jobj [("type", .jstr "string")]) 0 = .ok v ∧
      v ≠ .undef := by
  refine c1_generator_safety .jnull (.jobj [("type", .jstr "string")]) 0 ?_
  refine Good.obj _ rfl ?_ ?_ ?_ ?_ ?_ ?_ ?_ ?_ ?_ ?_ ?_ ?_
  · intro h; exact absurd h (by decide)
  · intro h; exact absurd h (by decide)
  · intro h; exact absurd h (by decide)
  · intro h; exact absurd h (by decide)
  · intro h; exact absurd h (by decide)
  · intro h; exact absurd h (by decide)
  · intro h; exact absurd h (by decide)
  · intro h; exact absurd h (by decide)
  · intro h t hc; exact JsVal.noConfusion hc
  · intro h t hc; exact JsVal.noConfusion hc
  · intro h t hc; exact JsVal.noConfusion hc
  · intro p hp
    rw [List.mem_singleton] at hp
    subst hp
    exact Good.str _

/-- Counterexample to C1 as stated: both schemas are free of refs at every
level, yet the first one (array type with a negative minItems) makes the
generator throw a RangeError, and the second one (integer type with an
empty enum array, which is truthy in JavaScript) makes it return the
undefined value, which is not JSON-serializable. -/
theorem c1_generator_safety_cex :
    generateExampleFromSchema .jnull
      (.jobj [("type", .jstr "array"), ("items", .jobj [("type", .jstr "string")]),
        ("minItems", .jnum (-1))]) 0 = .error "RangeError: Invalid array length" ∧
    generateExampleFromSchema .jnull
      (.jobj [("type", .jstr "integer"), ("enum", .jarr [])]) 0 = .ok .undef :=
  ⟨rfl, rfl⟩

end Spekai
